import Mathlib

/-!
Verification development for the `nasuni-mcp-desktop` file-system core
(`src/mcp/app/file_system.py` and `src/mcp/app/models.py`).

The Python code is shallowly embedded:

* Python `str` values are Lean `String`s; the `posixpath` primitives the code
  uses (`os.path.join`, `os.path.abspath` / `normpath`, `os.path.basename`,
  `os.path.dirname`, `os.path.commonpath`, `str.split('/')`, `str.startswith`,
  `str.endswith`) are implemented character-by-character after the CPython
  `posixpath.py` reference implementation.
* The operating system is a state `FSState`: answers of `os.path.exists`,
  `os.path.isdir`, `os.scandir`, `os.stat(...).st_size`, `open(...).read()`
  keyed by the exact path string the code passes, plus the availability and
  answers of the optional `hachoir` metadata collaborator.
* Fallible code returns `Except Err`; each `raise` site of the Python code is
  mapped to a distinct `Err` constructor (all of them `ValueError`s in Python,
  except `Err.systemExit`, which models `raise SystemExit`, the
  interpreter-terminating exception).
-/

/-! ## Character-list path primitives (CPython `posixpath` semantics) -/

/-- `s.split('/')` on character lists: split at every `'/'`, keeping empty
pieces, as Python `str.split` with an explicit separator does. -/
def consHead (c : Char) : List (List Char) → List (List Char)
  | [] => [[c]]
  | p :: ps => (c :: p) :: ps

def splitL : List Char → List (List Char)
  | [] => [[]]
  | c :: cs => if c = '/' then [] :: splitL cs else consHead c (splitL cs)

/-- `'/'.join(comps)` on character lists. -/
def joinL : List (List Char) → List Char
  | [] => []
  | [a] => a
  | a :: b :: rest => a ++ '/' :: joinL (b :: rest)

/-- Python `s.startswith(pre)` on character lists. -/
def startsWithL : List Char → List Char → Bool
  | [], _ => true
  | _ :: _, [] => false
  | p :: ps, x :: xs => p == x && startsWithL ps xs

/-- The `initial_slashes` computation of `posixpath.normpath`:
`initial_slashes = path.startswith('/')` (as `0`/`1`), upgraded to `2` when
the path starts with exactly two slashes. -/
def initSlashes (l : List Char) : Nat :=
  if startsWithL ['/'] l = true then
    if startsWithL ['/', '/'] l = true ∧ startsWithL ['/', '/', '/'] l = false then 2 else 1
  else 0

/-- The component-processing loop of `posixpath.normpath`: `k` is
`initial_slashes`, `acc` is `new_comps`.  `comp in ('', '.')` is skipped;
`'..'` is appended only for a relative path with an empty stack or after a
surviving `'..'`, otherwise it pops the stack (a no-op on an empty stack). -/
def normCompsFrom (k : Nat) (acc : List (List Char)) : List (List Char) → List (List Char)
  | [] => acc
  | comp :: rest =>
    if comp = [] ∨ comp = ['.'] then normCompsFrom k acc rest
    else if comp ≠ ['.', '.'] ∨ (k = 0 ∧ acc = []) ∨ acc.getLast? = some ['.', '.'] then
      normCompsFrom k (acc ++ [comp]) rest
    else normCompsFrom k acc.dropLast rest

/-- `posixpath.normpath` on character lists. -/
def normpathL (p : List Char) : List Char :=
  if p = [] then ['.']
  else
    let k := initSlashes p
    let res := List.replicate k '/' ++ joinL (normCompsFrom k [] (splitL p))
    if res = [] then ['.'] else res

/-- `posixpath.join(a, b)` (two arguments) on character lists. -/
def join2L (a b : List Char) : List Char :=
  if b.head? = some '/' then b
  else if a = [] ∨ a.getLast? = some '/' then a ++ b
  else a ++ '/' :: b

/-- `posixpath.isabs` / Python `p.startswith('/')` as a Bool. -/
def isAbsB (l : List Char) : Bool := l.head? == some '/'

/-- `os.path.basename`: the suffix after the last `'/'` (the whole string if
there is none). -/
def basenameL (l : List Char) : List Char :=
  (l.reverse.takeWhile (fun c => c != '/')).reverse

/-- `os.path.dirname`: everything up to and including the last `'/'`, with
trailing slashes then stripped unless the head consists only of slashes. -/
def dirnameL (l : List Char) : List Char :=
  let head := (l.reverse.dropWhile (fun c => c != '/')).reverse
  if head ≠ [] ∧ head.any (fun c => c != '/') then
    (head.reverse.dropWhile (fun c => c == '/')).reverse
  else head

/-- Lexicographic strict order on lists given a strict order on elements;
this is Python's `list.__lt__` / `str.__lt__` comparison scheme. -/
def lexLtL {α : Type} [DecidableEq α] (ltE : α → α → Bool) : List α → List α → Bool
  | _, [] => false
  | [], _ :: _ => true
  | a :: as, b :: bs => ltE a b || (decide (a = b) && lexLtL ltE as bs)

/-- Python `Char` comparison (by code point, as Python compares one-character
strings). -/
def charLtB (a b : Char) : Bool := decide (a < b)

/-- Python `str <` on character lists. -/
def strLtC (a b : List Char) : Bool := lexLtL charLtB a b

/-- Python `list[str] <` used by `min`/`max` inside `posixpath.commonpath`. -/
def compsLt (a b : List (List Char)) : Bool := lexLtL strLtC a b

/-- Longest common prefix of two lists.  `posixpath.commonpath` computes it by
scanning `min(split_paths)` against `max(split_paths)`; for two lists that
scan yields exactly their longest common prefix. -/
def commonPrefixL {α : Type} [DecidableEq α] : List α → List α → List α
  | a :: as, b :: bs => if a = b then a :: commonPrefixL as bs else []
  | _, _ => []

/-- The filtered component list `[c for c in s.split(sep) if c and c != '.']`
of `posixpath.commonpath`. -/
def filteredCompsL (l : List Char) : List (List Char) :=
  (splitL l).filter (fun c => decide (c ≠ [] ∧ c ≠ ['.']))

/-- `posixpath.commonpath([a, b])`: `none` models the `ValueError` raised on
mixing absolute and relative paths. -/
def commonpath2L (a b : List Char) : Option (List Char) :=
  if isAbsB a ≠ isAbsB b then none
  else
    let ca := filteredCompsL a
    let cb := filteredCompsL b
    let s1 := if compsLt cb ca then cb else ca
    let s2 := if compsLt ca cb then cb else ca
    some ((if isAbsB a then ['/'] else []) ++ joinL (commonPrefixL s1 s2))

/-! ## String wrappers -/

def normpathS (s : String) : String := ⟨normpathL s.data⟩

def join2S (a b : String) : String := ⟨join2L a.data b.data⟩

/-- Absoluteness of a path string, as Python `isabs`. -/
def IsAbsS (s : String) : Prop := s.data.head? = some '/'

instance (s : String) : Decidable (IsAbsS s) := by unfold IsAbsS; infer_instance

/-- `os.path.abspath`: paths that are not absolute are joined onto the
process working directory before normalization. -/
def abspathS (cwd p : String) : String :=
  if IsAbsS p then normpathS p else normpathS (join2S cwd p)

def basenameS (s : String) : String := ⟨basenameL s.data⟩

def dirnameS (s : String) : String := ⟨dirnameL s.data⟩

def commonpathS (a b : String) : Option String :=
  (commonpath2L a.data b.data).map (fun l => ⟨l⟩)

/-- Python `s.startswith(pre)`. -/
def startsWithS (s pre : String) : Bool := pre.data.isPrefixOf s.data

/-- Python `s.endswith('/')`. -/
def endsWithSlashS (s : String) : Bool := s.data.getLast? == some '/'

/-! ## Data models (`src/mcp/app/models.py`) -/

structure FolderItem where
  name : String
  path : String
deriving DecidableEq, Repr

structure FileItem where
  name : String
  path : String
  size : Nat
  is_too_large : Bool := false
deriving DecidableEq, Repr

/-- `FileSystemItem`: a file-or-folder wrapper (`Item` plus the `is_folder`
discrimination used by `FolderContents.load_contents`). -/
inductive FSItem where
  | folder (f : FolderItem)
  | file (f : FileItem)
deriving DecidableEq, Repr

def FSItem.folderPart : FSItem → Option FolderItem
  | .folder f => some f
  | .file _ => none

def FSItem.filePart : FSItem → Option FileItem
  | .folder _ => none
  | .file f => some f

structure FolderContents where
  folder : FolderItem
  subfolders : List FolderItem := []
  files : List FileItem := []
deriving DecidableEq, Repr

/-- `FolderContents.load_contents`: partition the scanned items, preserving
order, into subfolders and files. -/
def loadContents (folder : FolderItem) (items : List FSItem) : FolderContents :=
  { folder := folder
    subfolders := items.filterMap FSItem.folderPart
    files := items.filterMap FSItem.filePart }

/-- `FileItem.define_if_is_too_large`. -/
def defineIfIsTooLarge (f : FileItem) (maxSize : Nat) : FileItem :=
  if f.size > maxSize then { f with is_too_large := true } else f

/-- A metadata value: `vals if len(vals) > 1 else vals[0]` in
`FileSystem.get_metadata`. -/
inductive MetaValue where
  | single (v : String)
  | multi (vs : List String)
deriving DecidableEq, Repr

structure FileMetadata where
  file_item : FileItem
  metadata : List (String × MetaValue)
deriving DecidableEq, Repr

/-- A naive timestamp as produced by `datetime.strptime` for the formats used
here (seconds and microseconds are always zero); ordered field-lexicographically
like Python `datetime`. -/
structure Timestamp where
  year : Nat
  month : Nat
  day : Nat
  hour : Nat
  minute : Nat
deriving DecidableEq, Repr

/-- `datetime.min`. -/
def tsMin : Timestamp := ⟨1, 1, 1, 0, 0⟩

structure SnapshotSummary where
  id : String
  display_name : String
  timestamp : Option Timestamp
  contains_path : Bool
deriving DecidableEq, Repr

structure SnapshotList where
  snapshot_folder : String
  target_path : String
  snapshots : List SnapshotSummary
deriving DecidableEq, Repr

/-! ## Configuration and filesystem state -/

/-- Modelled from the spec: `config.py` is not part of the given sources; the
spec's §3 "Configuration" lists exactly the fields `file_system_path`,
`snapshot_folder_name` (optional: empty string models the falsy
disabled state), `include_snapshot_root`, `exclude_folders`, `max_scan_items`
(0 models the falsy "no limit"), `max_return_file_size` and
`max_read_file_size` (`none` models Python `None`). -/
structure Config where
  file_system_path : String
  snapshot_folder_name : String := ""
  include_snapshot_root : Bool := false
  exclude_folders : List String := []
  max_scan_items : Nat := 0
  max_return_file_size : Option Nat := none
  max_read_file_size : Option Nat := none

/-- A directory entry as yielded by `os.scandir`: name, `is_dir()` flag and
`stat().st_size`. -/
structure DirEntry where
  name : String
  isDir : Bool
  size : Nat
deriving DecidableEq, Repr

/-- The operating-system state the code interrogates, keyed by the exact path
strings it passes, plus the optional `hachoir` collaborator. -/
structure FSState where
  cwd : String
  pathExists : String → Bool
  isDir : String → Bool
  scandir : String → List DirEntry
  size : String → Nat
  contentBytes : String → List Nat
  contentText : String → String
  hachoirAvailable : Bool
  createParserOk : String → Bool
  extractedMeta : String → Option (List (String × List String))

/-- Python truthiness of an `Optional[int]`. -/
def optTruthy : Option Nat → Bool
  | none => false
  | some v => v != 0

/-- Python truthiness of the `snapshot_id: Optional[str]` argument. -/
def sidTruthy : Option String → Bool
  | none => false
  | some s => s != ""

/-! ## Errors

Every constructor corresponds to one `raise` site of `file_system.py`; all are
`ValueError` in Python except `systemExit`, which models `raise SystemExit`
(the exception that terminates the interpreter when it reaches the top). -/

inductive Err where
  /-- "Access to the path is not allowed." / "Access to the snapshot path is
  not allowed." — the spec's `AccessDenied`. -/
  | accessDenied
  /-- "Path {p} is not found." — the spec's `NotFound` (raised both for an
  excluded path and for a non-existing path). -/
  | notFound (p : String)
  /-- "Path is not a directory" in `folder_contents`. -/
  | notADirectory
  /-- "Path is a directory" in `get_metadata`, and the `IsADirectoryError`
  `open()` raises on a directory. -/
  | isADirectory
  /-- "File {p} is too large to download." / "... to return." -/
  | tooLarge (p : String)
  /-- "Snapshot support is disabled." -/
  | snapshotDisabled
  /-- "Snapshot root {p} is not available." -/
  | snapshotRootUnavailable (p : String)
  /-- "Snapshot {id} is not available." -/
  | snapshotUnavailable (sid : String)
  /-- "hachoir is not available to extract metadata." — the spec's
  `Unavailable`. -/
  | unavailable
  /-- `raise SystemExit(msg)` — terminates the program. -/
  | systemExit (msg : String)
  /-- "Can't mix absolute and relative paths" from `os.path.commonpath`. -/
  | mixedPaths
deriving DecidableEq, Repr

/-! ## `SizeLimitKind` and the `FileSystem` operations -/

inductive SizeLimitKind where
  | READ
  | RETURN
  | NONE
deriving DecidableEq, Repr

/-- `FileSystem._check_path_is_in_excluded_folder`. -/
def checkPathIsInExcludedFolder (cfg : Config) (path : String) : Bool :=
  cfg.exclude_folders.any (fun excluded => startsWithS path excluded)

/-- `FileSystem._require_path_is_in_excluded_folder`: raises the *not found*
error for an excluded path. -/
def requirePathIsInExcludedFolder (cfg : Config) (path : String) : Except Err Unit :=
  if checkPathIsInExcludedFolder cfg path then
    .error (.notFound path)
  else .ok ()

/-- `FileSystem._build_path`. -/
def buildPath (fs : FSState) (cfg : Config) (relativePath : String) : Except Err String :=
  if relativePath = "" ∨ relativePath = "/" ∨ relativePath = "." then
    .ok cfg.file_system_path
  else
    let path := join2S cfg.file_system_path relativePath
    let absPath := abspathS fs.cwd path
    let baseDir := abspathS fs.cwd cfg.file_system_path
    match commonpathS absPath baseDir with
    | none => .error .mixedPaths
    | some c => if c ≠ baseDir then .error .accessDenied else .ok absPath

/-- `FileSystem._ensure_path_allowed`. -/
def ensurePathAllowed (fs : FSState) (cfg : Config) (relativePath : String) : Except Err Unit := do
  let canonicalPath ← buildPath fs cfg relativePath
  requirePathIsInExcludedFolder cfg canonicalPath

/-- The snapshot root path `_get_snapshot_root` computes before its directory
check. -/
def snapRootDef (fs : FSState) (cfg : Config) : String :=
  abspathS fs.cwd (join2S cfg.file_system_path cfg.snapshot_folder_name)

/-- `FileSystem._get_snapshot_root`. -/
def getSnapshotRoot (fs : FSState) (cfg : Config) : Except Err String :=
  if cfg.snapshot_folder_name = "" then .error .snapshotDisabled
  else
    let snapshotRoot := snapRootDef fs cfg
    if fs.isDir snapshotRoot then .ok snapshotRoot
    else .error (.snapshotRootUnavailable snapshotRoot)

/-- The snapshot base path `_build_snapshot_path` computes for a snapshot id
(before its directory check). -/
def snapBaseDef (fs : FSState) (cfg : Config) (snapshotId : String) : String :=
  abspathS fs.cwd (join2S (snapRootDef fs cfg) snapshotId)

/-- `FileSystem._build_snapshot_path`. -/
def buildSnapshotPath (fs : FSState) (cfg : Config) (snapshotId relativePath : String) :
    Except Err String := do
  let snapshotRoot ← getSnapshotRoot fs cfg
  let snapshotBase := abspathS fs.cwd (join2S snapshotRoot snapshotId)
  if ¬ fs.isDir snapshotBase then .error (.snapshotUnavailable snapshotId)
  else if relativePath = "" ∨ relativePath = "/" ∨ relativePath = "\\" then
    .ok snapshotBase
  else
    let absPath := abspathS fs.cwd (join2S snapshotBase relativePath)
    match commonpathS absPath snapshotBase with
    | none => .error .mixedPaths
    | some c => if c ≠ snapshotBase then .error .accessDenied else .ok absPath

/-- The normalization at the top of `_resolve_full_path`: `""`, `"/"`, `"\\"`
(and Python `None`) all become `""`. -/
def normRel (r : String) : String :=
  if r = "" ∨ r = "/" ∨ r = "\\" then "" else r

/-- `FileSystem._resolve_full_path`. -/
def resolveFullPath (fs : FSState) (cfg : Config) (relativePath : String)
    (snapshotId : Option String) : Except Err String := do
  let normalizedPath := normRel relativePath
  let resolved ← (if sidTruthy snapshotId then do
      ensurePathAllowed fs cfg normalizedPath
      buildSnapshotPath fs cfg (snapshotId.getD "") normalizedPath
    else do
      let resolved ← buildPath fs cfg normalizedPath
      requirePathIsInExcludedFolder cfg resolved
      pure resolved)
  if ¬ fs.pathExists resolved then .error (.notFound resolved)
  else pure resolved

/-- The `item_path` a scanned child gets in `folder_contents`. -/
def childItemPath (relativePath name : String) : String :=
  (if relativePath ≠ "" ∧ endsWithSlashS relativePath = false
   then relativePath ++ "/" else relativePath) ++ name

/-- The scan loop of `folder_contents` over `os.scandir` entries: skips the
snapshot-root folder when applicable, skips excluded directories, builds
items, and `break`s once `scan_first_items` (when truthy) entries were
accumulated. -/
def fcLoop (fs : FSState) (cfg : Config) (relativePath : String) (snapshotId : Option String)
    (lim : Nat) : List DirEntry → List FSItem → Except Err (List FSItem)
  | [], acc => .ok acc
  | e :: rest, acc =>
    if sidTruthy snapshotId = false ∧ e.isDir = true ∧ cfg.include_snapshot_root = false
        ∧ cfg.snapshot_folder_name ≠ "" ∧ e.name = cfg.snapshot_folder_name then
      fcLoop fs cfg relativePath snapshotId lim rest acc
    else
      let itemPath := childItemPath relativePath e.name
      if e.isDir then do
        let absoluteItemPath ← buildPath fs cfg itemPath
        if checkPathIsInExcludedFolder cfg absoluteItemPath then
          fcLoop fs cfg relativePath snapshotId lim rest acc
        else
          let acc' := acc ++ [FSItem.folder ⟨e.name, itemPath⟩]
          if lim ≠ 0 ∧ acc'.length ≥ lim then .ok acc'
          else fcLoop fs cfg relativePath snapshotId lim rest acc'
      else
        let fi : FileItem := ⟨e.name, itemPath, e.size, false⟩
        let fi := if optTruthy cfg.max_return_file_size then
            defineIfIsTooLarge fi (cfg.max_return_file_size.getD 0)
          else fi
        let acc' := acc ++ [FSItem.file fi]
        if lim ≠ 0 ∧ acc'.length ≥ lim then .ok acc'
        else fcLoop fs cfg relativePath snapshotId lim rest acc'

/-- The normalization at the top of `folder_contents`: `"/"` and `"\\"`
denote the root. -/
def normFC (r : String) : String :=
  if r = "/" ∨ r = "\\" then "" else r

/-- `scan_first_items = self.config.max_scan_items if scan_limit is None else
scan_limit`. -/
def effScanLimit (cfg : Config) : Option Nat → Nat
  | none => cfg.max_scan_items
  | some n => n

/-- The folder-name derivation of `folder_contents`: last segment of the
logical relative path, with a trailing slash handled via `dirname`. -/
def fcFolderName (relativePath : String) : String :=
  if endsWithSlashS relativePath then basenameS (dirnameS relativePath)
  else basenameS relativePath

/-- `FileSystem.folder_contents`. -/
def folderContents (fs : FSState) (cfg : Config) (relativePath : String)
    (scanLimit : Option Nat) (snapshotId : Option String) : Except Err FolderContents := do
  let relativePath := normFC relativePath
  let scanFirstItems := effScanLimit cfg scanLimit
  let folderPath ← resolveFullPath fs cfg relativePath snapshotId
  if ¬ fs.isDir folderPath then .error .notADirectory
  else do
    let items ← fcLoop fs cfg relativePath snapshotId scanFirstItems (fs.scandir folderPath) []
    pure (loadContents ⟨fcFolderName relativePath, relativePath⟩ items)

/-- `FileSystem._check_file_size_is_not_too_large`. -/
def checkFileSizeIsNotTooLarge (fs : FSState) (cfg : Config) (fullPath : String)
    (sizeLimitKind : SizeLimitKind) : Except Err Unit :=
  match sizeLimitKind with
  | .READ =>
    match cfg.max_read_file_size with
    | some m => if fs.size fullPath > m then .error (.tooLarge fullPath) else .ok ()
    | none => .ok ()
  | .RETURN =>
    match cfg.max_return_file_size with
    | some m => if fs.size fullPath > m then .error (.tooLarge fullPath) else .ok ()
    | none => .ok ()
  | .NONE => .ok ()

/-- `FileSystem.get_file_content` (`open(path, "rb").read()`; opening a
directory raises `IsADirectoryError`). -/
def getFileContent (fs : FSState) (cfg : Config) (path : String)
    (sizeLimitKind : SizeLimitKind) (snapshotId : Option String) : Except Err (List Nat) := do
  let fullPath ← resolveFullPath fs cfg path snapshotId
  checkFileSizeIsNotTooLarge fs cfg fullPath sizeLimitKind
  if fs.isDir fullPath then .error .isADirectory
  else pure (fs.contentBytes fullPath)

/-- `FileSystem.get_file_content_as_string` (lossy UTF-8 decoding is part of
the `contentText` state function). -/
def getFileContentAsString (fs : FSState) (cfg : Config) (path : String)
    (sizeLimitKind : SizeLimitKind) (snapshotId : Option String) : Except Err String := do
  let fullPath ← resolveFullPath fs cfg path snapshotId
  checkFileSizeIsNotTooLarge fs cfg fullPath sizeLimitKind
  if fs.isDir fullPath then .error .isADirectory
  else pure (fs.contentText fullPath)

/-- The metadata marshaling loop of `get_metadata`: items with no values are
dropped; a single value is unwrapped, several are kept as a list. -/
def marshalMeta (entries : List (String × List String)) : List (String × MetaValue) :=
  (entries.filter (fun kv => decide (kv.2 ≠ []))).map
    (fun kv => (kv.1, if kv.2.length > 1 then MetaValue.multi kv.2
      else MetaValue.single (kv.2.headD "")))

/-- `FileSystem.get_metadata`. -/
def getMetadata (fs : FSState) (cfg : Config) (path : String) (snapshotId : Option String) :
    Except Err FileMetadata := do
  if fs.hachoirAvailable = false then .error .unavailable
  else do
    let fullPath ← resolveFullPath fs cfg path snapshotId
    if fs.isDir fullPath then .error .isADirectory
    else
      let item : FileItem := ⟨basenameS path, path, fs.size fullPath, false⟩
      let item := if optTruthy cfg.max_return_file_size then
          defineIfIsTooLarge item (cfg.max_return_file_size.getD 0)
        else item
      if fs.createParserOk fullPath = false then
        .error (.systemExit ("Unable to parse file: " ++ path))
      else
        let md := match fs.extractedMeta fullPath with
          | none => []
          | some entries => marshalMeta entries
        pure ⟨item, md⟩

/-! ## `datetime.strptime` for the two snapshot-id formats

`_parse_snapshot_timestamp` tries `"%Y_%m_%d_%H.%M%Z"` then `"%Y_%m_%d_%H.%M"`.
CPython compiles each directive to a regex alternation
(`Y: \d\d\d\d`, `m: 1[0-2]|0[1-9]|[1-9]`, `d: 3[0-1]|[1-2]\d|0[1-9]|[1-9]| [1-9]`,
`H: 2[0-3]|[0-1]\d|\d`, `M: [0-5]\d|\d`, case-insensitive), matches with
backtracking anchored at the start, then raises `ValueError` (caught by the
caller) if input remains after the match or if `datetime(...)` rejects the
field values.  `%Z` is an alternation over the timezone names known to the
runtime — always containing `utc` and `gmt`; the locale's own names are not
modelled (`%Z` never sets a UTC offset, so the produced timestamp is the naive
field tuple either way).  Alternatives are tried in the regex's order, with
backtracking into earlier groups when a later literal or group fails. -/

def digitVal? (c : Char) : Option Nat :=
  if '0' ≤ c ∧ c ≤ '9' then some (c.toNat - 48) else none

/-- Priority-ordered alternative matches for `%Y` (`\d\d\d\d`). -/
def pY : List Char → List (Nat × List Char)
  | a :: b :: c :: d :: rest =>
    match digitVal? a, digitVal? b, digitVal? c, digitVal? d with
    | some x, some y, some z, some w => [(((x * 10 + y) * 10 + z) * 10 + w, rest)]
    | _, _, _, _ => []
  | _ => []

/-- Priority-ordered alternative matches for `%m` (`1[0-2]|0[1-9]|[1-9]`). -/
def pMo (cs : List Char) : List (Nat × List Char) :=
  (match cs with
   | a :: b :: rest =>
     (if a = '1' ∧ '0' ≤ b ∧ b ≤ '2' then [(10 + (b.toNat - 48), rest)] else []) ++
     (if a = '0' ∧ '1' ≤ b ∧ b ≤ '9' then [(b.toNat - 48, rest)] else [])
   | _ => []) ++
  (match cs with
   | a :: rest => if '1' ≤ a ∧ a ≤ '9' then [(a.toNat - 48, rest)] else []
   | _ => [])

/-- Priority-ordered alternative matches for `%d`
(`3[0-1]|[1-2]\d|0[1-9]|[1-9]| [1-9]`). -/
def pD (cs : List Char) : List (Nat × List Char) :=
  (match cs with
   | a :: b :: rest =>
     (if a = '3' ∧ '0' ≤ b ∧ b ≤ '1' then [(30 + (b.toNat - 48), rest)] else []) ++
     (if ('1' ≤ a ∧ a ≤ '2') ∧ ('0' ≤ b ∧ b ≤ '9') then
       [((a.toNat - 48) * 10 + (b.toNat - 48), rest)] else []) ++
     (if a = '0' ∧ '1' ≤ b ∧ b ≤ '9' then [(b.toNat - 48, rest)] else [])
   | _ => []) ++
  (match cs with
   | a :: rest => if '1' ≤ a ∧ a ≤ '9' then [(a.toNat - 48, rest)] else []
   | _ => []) ++
  (match cs with
   | a :: b :: rest => if a = ' ' ∧ '1' ≤ b ∧ b ≤ '9' then [(b.toNat - 48, rest)] else []
   | _ => [])

/-- Priority-ordered alternative matches for `%H` (`2[0-3]|[0-1]\d|\d`). -/
def pH (cs : List Char) : List (Nat × List Char) :=
  (match cs with
   | a :: b :: rest =>
     (if a = '2' ∧ '0' ≤ b ∧ b ≤ '3' then [(20 + (b.toNat - 48), rest)] else []) ++
     (if ('0' ≤ a ∧ a ≤ '1') ∧ ('0' ≤ b ∧ b ≤ '9') then
       [((a.toNat - 48) * 10 + (b.toNat - 48), rest)] else [])
   | _ => []) ++
  (match cs with
   | a :: rest => if '0' ≤ a ∧ a ≤ '9' then [(a.toNat - 48, rest)] else []
   | _ => [])

/-- Priority-ordered alternative matches for `%M` (`[0-5]\d|\d`). -/
def pMin (cs : List Char) : List (Nat × List Char) :=
  (match cs with
   | a :: b :: rest =>
     if ('0' ≤ a ∧ a ≤ '5') ∧ ('0' ≤ b ∧ b ≤ '9') then
       [((a.toNat - 48) * 10 + (b.toNat - 48), rest)] else []
   | _ => []) ++
  (match cs with
   | a :: rest => if '0' ≤ a ∧ a ≤ '9' then [(a.toNat - 48, rest)] else []
   | _ => [])

/-- `%Z`: one of the runtime's timezone tokens (always `utc` / `gmt`),
case-insensitively. -/
def pZ : List Char → Option (List Char)
  | a :: b :: c :: rest =>
    let w := [a.toLower, b.toLower, c.toLower]
    if w = ['u', 't', 'c'] ∨ w = ['g', 'm', 't'] then some rest else none
  | _ => none

/-- Regex literal match. -/
def pLit (c : Char) : List Char → Option (List Char)
  | x :: rest => if x = c then some rest else none
  | [] => none

/-- Backtracking over a priority-ordered alternative list: the first
alternative whose continuation succeeds wins. -/
def tryAlts {β : Type} (alts : List (Nat × List Char)) (k : Nat → List Char → Option β) :
    Option β :=
  match alts with
  | [] => none
  | (v, r) :: rest =>
    match k v r with
    | some x => some x
    | none => tryAlts rest k

/-- The anchored regex match for `"%Y_%m_%d_%H.%M"`, returning the matched
fields and the unconsumed remainder. -/
def matchYmdHM (cs : List Char) : Option (Nat × Nat × Nat × Nat × Nat × List Char) :=
  tryAlts (pY cs) fun y r0 =>
  (pLit '_' r0).bind fun r1 =>
  tryAlts (pMo r1) fun mo r2 =>
  (pLit '_' r2).bind fun r3 =>
  tryAlts (pD r3) fun d r4 =>
  (pLit '_' r4).bind fun r5 =>
  tryAlts (pH r5) fun h r6 =>
  (pLit '.' r6).bind fun r7 =>
  tryAlts (pMin r7) fun mi r8 =>
  some (y, mo, d, h, mi, r8)

/-- The anchored regex match for `"%Y_%m_%d_%H.%M%Z"`. -/
def matchYmdHMZ (cs : List Char) : Option (Nat × Nat × Nat × Nat × Nat × List Char) :=
  tryAlts (pY cs) fun y r0 =>
  (pLit '_' r0).bind fun r1 =>
  tryAlts (pMo r1) fun mo r2 =>
  (pLit '_' r2).bind fun r3 =>
  tryAlts (pD r3) fun d r4 =>
  (pLit '_' r4).bind fun r5 =>
  tryAlts (pH r5) fun h r6 =>
  (pLit '.' r6).bind fun r7 =>
  tryAlts (pMin r7) fun mi r8 =>
  (pZ r8).bind fun r9 =>
  some (y, mo, d, h, mi, r9)

def isLeapYear (y : Nat) : Bool := decide (y % 4 = 0 ∧ (y % 100 ≠ 0 ∨ y % 400 = 0))

def daysInMonth (y m : Nat) : Nat :=
  if m = 2 then (if isLeapYear y then 29 else 28)
  else if m = 4 ∨ m = 6 ∨ m = 9 ∨ m = 11 then 30 else 31

/-- The validation `datetime(y, m, d, h, mi)` performs (a failure raises
`ValueError`, which `_parse_snapshot_timestamp` turns into trying the next
format). -/
def mkValidTimestamp (y mo d h mi : Nat) : Option Timestamp :=
  if 1 ≤ y ∧ y ≤ 9999 ∧ 1 ≤ mo ∧ mo ≤ 12 ∧ 1 ≤ d ∧ d ≤ daysInMonth y mo
      ∧ h ≤ 23 ∧ mi ≤ 59 then
    some ⟨y, mo, d, h, mi⟩
  else none

/-- `datetime.strptime(s, fmt)` for one of the two formats: anchored match,
"unconverted data remains" check, then field validation. -/
def strptimeFmt (useTZ : Bool) (s : String) : Option Timestamp :=
  match (if useTZ then matchYmdHMZ s.data else matchYmdHM s.data) with
  | none => none
  | some (y, mo, d, h, mi, leftover) =>
    if leftover ≠ [] then none else mkValidTimestamp y mo d h mi

/-- `FileSystem._parse_snapshot_timestamp`: the formats are tried in order
(`%Z` variant first). -/
def parseSnapshotTimestamp (sid : String) : Option Timestamp :=
  match strptimeFmt true sid with
  | some t => some t
  | none => strptimeFmt false sid

/-! ## `list_snapshots` -/

/-- The Python sort key `(item.timestamp if item.timestamp is not None else
datetime.min, item.id)`, flattened into one `List Nat`: a `datetime` compares
field-lexicographically and a `str` by code points, and since the timestamp
part always has exactly five entries, lexicographic comparison of the
flattened lists coincides with Python's tuple comparison. -/
def snapKey (s : SnapshotSummary) : List Nat :=
  let t := s.timestamp.getD tsMin
  [t.year, t.month, t.day, t.hour, t.minute] ++ s.id.data.map Char.toNat

def natLexLt (a b : List Nat) : Bool := lexLtL (fun x y => decide (x < y)) a b

/-- The ordering realised by `snapshots.sort(key=..., reverse=True)`: `a` may
precede `b` exactly when `key a ≥ key b`.  A stable sort with this total
preorder produces the same list as CPython's stable `list.sort` with
`reverse=True` (descending overall, original order among equal keys); the
model uses the structurally-recursive stable `List.insertionSort`, whose
output coincides with any other stable sort of the same total preorder. -/
def snapDescLe (a b : SnapshotSummary) : Bool := ! natLexLt (snapKey a) (snapKey b)

/-- `FileSystem.list_snapshots`. -/
def listSnapshots (fs : FSState) (cfg : Config) (path : String) : SnapshotList :=
  let targetPath := normRel path
  if cfg.snapshot_folder_name = "" then
    ⟨"", targetPath, []⟩
  else
    match getSnapshotRoot fs cfg with
    | .error _ => ⟨cfg.snapshot_folder_name, targetPath, []⟩
    | .ok snapshotRoot =>
      match ensurePathAllowed fs cfg targetPath with
      | .error _ => ⟨cfg.snapshot_folder_name, targetPath, []⟩
      | .ok _ =>
        let snaps := ((fs.scandir snapshotRoot).filter (fun e => e.isDir)).map (fun e =>
          let entryPath := join2S snapshotRoot e.name
          let candidatePath := if targetPath ≠ "" then join2S entryPath targetPath
            else entryPath
          ({ id := e.name
             display_name := e.name
             timestamp := parseSnapshotTimestamp e.name
             contains_path := fs.pathExists candidatePath } : SnapshotSummary))
        ⟨cfg.snapshot_folder_name, targetPath,
          snaps.insertionSort (fun a b => snapDescLe a b = true)⟩

/-! ## Basic lemmas about the embedding's plumbing -/

theorem normRel_normFC (r : String) : normRel (normFC r) = normRel r := by
  unfold normRel normFC
  split
  · simp_all
  · rfl

/-- Behaviour of `_resolve_full_path` without a (truthy) snapshot id. -/
theorem resolveFullPath_live (fs : FSState) (cfg : Config) (rel : String) :
    resolveFullPath fs cfg rel none =
      match buildPath fs cfg (normRel rel) with
      | .error e => .error e
      | .ok resolved =>
        if checkPathIsInExcludedFolder cfg resolved then .error (.notFound resolved)
        else if fs.pathExists resolved = false then .error (.notFound resolved)
        else .ok resolved := by
  unfold resolveFullPath requirePathIsInExcludedFolder sidTruthy
  cases hb : buildPath fs cfg (normRel rel) with
  | error e => simp [hb, Bind.bind, Except.bind]
  | ok resolved =>
    by_cases hex : checkPathIsInExcludedFolder cfg resolved
    · simp [hb, hex, Bind.bind, Except.bind]
    · by_cases hpe : fs.pathExists resolved
      · simp [hb, hex, hpe, Bind.bind, Except.bind, Pure.pure, Except.pure]
      · simp [hb, hex, hpe, Bind.bind, Except.bind, Pure.pure, Except.pure]

/-! ## Claim C2: excluded paths are reported as not-found everywhere -/

/-- C2: whenever the resolved absolute path of a relative path lies under a
configured excluded-folder prefix, folder listing, byte read, text read and
metadata (with the collaborator installed) all fail with the *not found*
error — never `accessDenied` — with no assumption on whether the path exists
(the exclusion check precedes the existence check). -/
theorem claim_C2 (fs : FSState) (cfg : Config) (rel ap : String)
    (hb : buildPath fs cfg (normRel rel) = .ok ap)
    (hex : checkPathIsInExcludedFolder cfg ap = true) :
    (∀ lim, folderContents fs cfg rel lim none = .error (.notFound ap)) ∧
    (∀ k, getFileContent fs cfg rel k none = .error (.notFound ap)) ∧
    (∀ k, getFileContentAsString fs cfg rel k none = .error (.notFound ap)) ∧
    (fs.hachoirAvailable = true → getMetadata fs cfg rel none = .error (.notFound ap)) := by
  have hres : resolveFullPath fs cfg rel none = .error (.notFound ap) := by
    rw [resolveFullPath_live, hb]
    simp [hex]
  have hres2 : resolveFullPath fs cfg (normFC rel) none = .error (.notFound ap) := by
    rw [resolveFullPath_live, normRel_normFC, hb]
    simp [hex]
  refine ⟨?_, ?_, ?_, ?_⟩
  · intro lim
    unfold folderContents
    simp [hres2, Bind.bind, Except.bind]
  · intro k
    unfold getFileContent
    simp [hres, Bind.bind, Except.bind]
  · intro k
    unfold getFileContentAsString
    simp [hres, Bind.bind, Except.bind]
  · intro hav
    unfold getMetadata
    simp [hav, hres, Bind.bind, Except.bind]

/-! ## Concrete example worlds used by witnesses and counterexamples -/

/-- A small configuration: root `/r`, snapshots under `.snapshot`, the folder
`/r/private` excluded, a 1MB return limit and a 4MB read limit. -/
def exCfgA : Config :=
  { file_system_path := "/r"
    snapshot_folder_name := ".snapshot"
    include_snapshot_root := false
    exclude_folders := ["/r/private"]
    max_scan_items := 0
    max_return_file_size := some 1048576
    max_read_file_size := some 4194304 }

/-- A small filesystem world matching `exCfgA`. -/
def exFsA : FSState :=
  { cwd := "/cwd"
    pathExists := fun p =>
      ["/r", "/r/d", "/r/.snapshot", "/r/.snapshot/s1", "/r/.snapshot/s1/f.txt",
       "/r/big.txt", "/r/bad.bin"].contains p
    isDir := fun p => ["/r", "/r/d", "/r/.snapshot", "/r/.snapshot/s1"].contains p
    scandir := fun p =>
      if p = "/r" then [⟨"d", true, 0⟩, ⟨"big.txt", false, 10485760⟩] else []
    size := fun p => if p = "/r/big.txt" then 10485760 else 3
    contentBytes := fun p => if p = "/r/.snapshot/s1/f.txt" then [42] else [7]
    contentText := fun _ => "text"
    hachoirAvailable := true
    createParserOk := fun p => p != "/r/bad.bin"
    extractedMeta := fun _ => some [("k", ["v"])] }

/-- `exFsA` in a deployment without the `hachoir` collaborator. -/
def exFsANoH : FSState := { exFsA with hachoirAvailable := false }

/-- Witness for C2 at a concrete world: reading under the excluded folder
reports *not found* (even though nothing exists there). -/
theorem claim_C2_witness :
    getFileContent exFsA exCfgA "private/x" SizeLimitKind.RETURN none
      = .error (.notFound "/r/private/x") :=
  (claim_C2 exFsA exCfgA "private/x" "/r/private/x" rfl rfl).2.1 SizeLimitKind.RETURN

/-! ## Claim C3: metadata failure modes -/

/-- C3 (code bug): when the `hachoir` collaborator is installed but cannot
parse the file at all, `get_metadata` raises `SystemExit` — the
interpreter-terminating exception, not an ordinary error (the spec's
`UnsupportedFile`); when the collaborator is absent it correctly fails with
the ordinary `unavailable` error. Evaluated at the failing input
`get_metadata("bad.bin")` in the concrete world `exFsA`. -/
theorem claim_C3_bug :
    getMetadata exFsA exCfgA "bad.bin" none
      = .error (.systemExit "Unable to parse file: bad.bin") ∧
    getMetadata exFsANoH exCfgA "bad.bin" none = .error .unavailable := by
  exact ⟨rfl, rfl⟩

/-! ## Lemmas about the scan loop -/

/-- Whether the scan loop keeps a directory entry (i.e. neither the
snapshot-root skip nor the excluded-directory skip applies to it). -/
def keptEntry (fs : FSState) (cfg : Config) (relativePath : String) (snapshotId : Option String)
    (e : DirEntry) : Bool :=
  if sidTruthy snapshotId = false ∧ e.isDir = true ∧ cfg.include_snapshot_root = false
      ∧ cfg.snapshot_folder_name ≠ "" ∧ e.name = cfg.snapshot_folder_name then false
  else if e.isDir then
    match buildPath fs cfg (childItemPath relativePath e.name) with
    | .ok a => ! checkPathIsInExcludedFolder cfg a
    | .error _ => false
  else true

/-- The item the scan loop builds for a kept entry. -/
def entryItem (cfg : Config) (relativePath : String) (e : DirEntry) : FSItem :=
  if e.isDir then .folder ⟨e.name, childItemPath relativePath e.name⟩
  else
    let fi : FileItem := ⟨e.name, childItemPath relativePath e.name, e.size, false⟩
    .file (if optTruthy cfg.max_return_file_size then
        defineIfIsTooLarge fi (cfg.max_return_file_size.getD 0) else fi)

/-- With a falsy scan limit the loop never breaks: it returns exactly the
kept entries' items, in enumeration order. -/
theorem fcLoop_untruncated (fs : FSState) (cfg : Config) (rel : String) (sid : Option String)
    (entries : List DirEntry) (acc res : List FSItem)
    (h : fcLoop fs cfg rel sid 0 entries acc = .ok res) :
    res = acc ++ (entries.filter (keptEntry fs cfg rel sid)).map (entryItem cfg rel) := by
  induction entries generalizing acc with
  | nil =>
    unfold fcLoop at h
    simp at h
    simp [h]
  | cons e rest ih =>
    unfold fcLoop at h
    by_cases hskip : sidTruthy sid = false ∧ e.isDir = true ∧ cfg.include_snapshot_root = false
        ∧ cfg.snapshot_folder_name ≠ "" ∧ e.name = cfg.snapshot_folder_name
    · rw [if_pos hskip] at h
      have hkept : keptEntry fs cfg rel sid e = false := by
        unfold keptEntry
        rw [if_pos hskip]
      rw [ih acc h, List.filter_cons, hkept]
      simp
    · rw [if_neg hskip] at h
      by_cases hdir : e.isDir
      · rw [if_pos hdir] at h
        cases hb : buildPath fs cfg (childItemPath rel e.name) with
        | error err =>
          rw [hb] at h
          simp [Bind.bind, Except.bind] at h
        | ok a =>
          rw [hb] at h
          simp only [Bind.bind, Except.bind] at h
          by_cases hex : checkPathIsInExcludedFolder cfg a
          · rw [if_pos hex] at h
            have hkept : keptEntry fs cfg rel sid e = false := by
              unfold keptEntry
              rw [if_neg hskip, if_pos hdir, hb]
              simp [hex]
            rw [ih acc h, List.filter_cons, hkept]
            simp
          · rw [if_neg hex] at h
            simp only [ne_eq, not_true_eq_false, false_and, if_false] at h
            have hkept : keptEntry fs cfg rel sid e = true := by
              unfold keptEntry
              rw [if_neg hskip, if_pos hdir, hb]
              simp [hex]
            have hitem : entryItem cfg rel e
                = FSItem.folder ⟨e.name, childItemPath rel e.name⟩ := by
              unfold entryItem
              rw [if_pos hdir]
            rw [ih _ h, List.filter_cons, hkept]
            simp [hitem]
      · rw [if_neg hdir] at h
        simp only [ne_eq, not_true_eq_false, false_and, if_false] at h
        have hkept : keptEntry fs cfg rel sid e = true := by
          unfold keptEntry
          simp [hskip, hdir]
        have hitem : entryItem cfg rel e = .file
            (if optTruthy cfg.max_return_file_size then
              defineIfIsTooLarge ⟨e.name, childItemPath rel e.name, e.size, false⟩
                (cfg.max_return_file_size.getD 0)
            else ⟨e.name, childItemPath rel e.name, e.size, false⟩) := by
          unfold entryItem
          simp [hdir]
        rw [ih _ h, List.filter_cons, hkept]
        simp [hitem]

/-- With a truthy scan limit the loop accumulates at most `lim` items. -/
theorem fcLoop_length_le (fs : FSState) (cfg : Config) (rel : String) (sid : Option String)
    (lim : Nat) (hlim : lim ≠ 0) (entries : List DirEntry) (acc res : List FSItem)
    (hacc : acc.length < lim)
    (h : fcLoop fs cfg rel sid lim entries acc = .ok res) :
    res.length ≤ lim := by
  induction entries generalizing acc with
  | nil =>
    unfold fcLoop at h
    simp at h
    subst h
    omega
  | cons e rest ih =>
    unfold fcLoop at h
    by_cases hskip : sidTruthy sid = false ∧ e.isDir = true ∧ cfg.include_snapshot_root = false
        ∧ cfg.snapshot_folder_name ≠ "" ∧ e.name = cfg.snapshot_folder_name
    · rw [if_pos hskip] at h
      exact ih acc hacc h
    · rw [if_neg hskip] at h
      by_cases hdir : e.isDir
      · rw [if_pos hdir] at h
        cases hb : buildPath fs cfg (childItemPath rel e.name) with
        | error err =>
          rw [hb] at h
          simp [Bind.bind, Except.bind] at h
        | ok a =>
          rw [hb] at h
          simp only [Bind.bind, Except.bind] at h
          by_cases hex : checkPathIsInExcludedFolder cfg a
          · rw [if_pos hex] at h
            exact ih acc hacc h
          · rw [if_neg hex] at h
            by_cases hbrk : lim ≠ 0 ∧
                (acc ++ [FSItem.folder ⟨e.name, childItemPath rel e.name⟩]).length ≥ lim
            · rw [if_pos hbrk] at h
              simp at h
              subst h
              simp
              omega
            · rw [if_neg hbrk] at h
              refine ih _ ?_ h
              simp at hbrk ⊢
              omega
      · rw [if_neg hdir] at h
        simp only [ne_eq, not_true_eq_false, false_and, if_false] at h
        by_cases hbrk : lim ≠ 0 ∧
            (acc ++ [FSItem.file (if optTruthy cfg.max_return_file_size then
              defineIfIsTooLarge ⟨e.name, childItemPath rel e.name, e.size, false⟩
                (cfg.max_return_file_size.getD 0)
              else ⟨e.name, childItemPath rel e.name, e.size, false⟩)]).length ≥ lim
        · rw [if_pos hbrk] at h
          simp at h
          subst h
          simp
          omega
        · rw [if_neg hbrk] at h
          refine ih _ ?_ h
          simp at hbrk ⊢
          omega

/-- Outside snapshot browsing, with `include_snapshot_root` false and a
configured snapshot folder name, the loop never emits a folder item carrying
the snapshot folder's name (any scan limit, any starting accumulator without
such an item). -/
theorem fcLoop_no_snapname (fs : FSState) (cfg : Config) (rel : String) (sid : Option String)
    (lim : Nat) (entries : List DirEntry) (acc res : List FSItem)
    (hsid : sidTruthy sid = false) (hinc : cfg.include_snapshot_root = false)
    (hname : cfg.snapshot_folder_name ≠ "")
    (hacc : ∀ f, FSItem.folder f ∈ acc → f.name ≠ cfg.snapshot_folder_name)
    (h : fcLoop fs cfg rel sid lim entries acc = .ok res) :
    ∀ f, FSItem.folder f ∈ res → f.name ≠ cfg.snapshot_folder_name := by
  induction entries generalizing acc with
  | nil =>
    unfold fcLoop at h
    simp at h
    subst h
    exact hacc
  | cons e rest ih =>
    unfold fcLoop at h
    by_cases hskip : sidTruthy sid = false ∧ e.isDir = true ∧ cfg.include_snapshot_root = false
        ∧ cfg.snapshot_folder_name ≠ "" ∧ e.name = cfg.snapshot_folder_name
    · rw [if_pos hskip] at h
      exact ih acc hacc h
    · rw [if_neg hskip] at h
      by_cases hdir : e.isDir
      · rw [if_pos hdir] at h
        cases hb : buildPath fs cfg (childItemPath rel e.name) with
        | error err =>
          rw [hb] at h
          simp [Bind.bind, Except.bind] at h
        | ok a =>
          rw [hb] at h
          simp only [Bind.bind, Except.bind] at h
          have hne : e.name ≠ cfg.snapshot_folder_name := by
            intro heq
            exact hskip ⟨hsid, hdir, hinc, hname, heq⟩
          have hacc' : ∀ f, FSItem.folder f ∈
              acc ++ [FSItem.folder ⟨e.name, childItemPath rel e.name⟩] →
              f.name ≠ cfg.snapshot_folder_name := by
            intro f hf
            rcases List.mem_append.1 hf with hl | hr
            · exact hacc f hl
            · simp at hr
              subst hr
              exact hne
          by_cases hex : checkPathIsInExcludedFolder cfg a
          · rw [if_pos hex] at h
            exact ih acc hacc h
          · rw [if_neg hex] at h
            by_cases hbrk : lim ≠ 0 ∧
                (acc ++ [FSItem.folder ⟨e.name, childItemPath rel e.name⟩]).length ≥ lim
            · rw [if_pos hbrk] at h
              simp at h
              subst h
              exact hacc'
            · rw [if_neg hbrk] at h
              exact ih _ hacc' h
      · rw [if_neg hdir] at h
        simp only [ne_eq, not_true_eq_false, false_and, if_false] at h
        have hacc' : ∀ f, FSItem.folder f ∈
            acc ++ [FSItem.file (if optTruthy cfg.max_return_file_size then
              defineIfIsTooLarge ⟨e.name, childItemPath rel e.name, e.size, false⟩
                (cfg.max_return_file_size.getD 0)
              else ⟨e.name, childItemPath rel e.name, e.size, false⟩)] →
            f.name ≠ cfg.snapshot_folder_name := by
          intro f hf
          rcases List.mem_append.1 hf with hl | hr
          · exact hacc f hl
          · simp at hr
        by_cases hbrk : lim ≠ 0 ∧ (acc ++ [FSItem.file
            (if optTruthy cfg.max_return_file_size then
              defineIfIsTooLarge ⟨e.name, childItemPath rel e.name, e.size, false⟩
                (cfg.max_return_file_size.getD 0)
            else ⟨e.name, childItemPath rel e.name, e.size, false⟩)]).length ≥ lim
        · rw [if_pos hbrk] at h
          simp at h
          subst h
          exact hacc'
        · rw [if_neg hbrk] at h
          exact ih _ hacc' h

/-- With a truthy configured return limit `v`, every file item the loop emits
whose size exceeds `v` carries `is_too_large = true`. -/
theorem fcLoop_too_large (fs : FSState) (cfg : Config) (rel : String) (sid : Option String)
    (lim : Nat) (v : Nat) (hv : cfg.max_return_file_size = some v) (hv0 : v ≠ 0)
    (entries : List DirEntry) (acc res : List FSItem)
    (hacc : ∀ fi, FSItem.file fi ∈ acc → fi.size > v → fi.is_too_large = true)
    (h : fcLoop fs cfg rel sid lim entries acc = .ok res) :
    ∀ fi, FSItem.file fi ∈ res → fi.size > v → fi.is_too_large = true := by
  induction entries generalizing acc with
  | nil =>
    unfold fcLoop at h
    simp at h
    subst h
    exact hacc
  | cons e rest ih =>
    unfold fcLoop at h
    by_cases hskip : sidTruthy sid = false ∧ e.isDir = true ∧ cfg.include_snapshot_root = false
        ∧ cfg.snapshot_folder_name ≠ "" ∧ e.name = cfg.snapshot_folder_name
    · rw [if_pos hskip] at h
      exact ih acc hacc h
    · rw [if_neg hskip] at h
      by_cases hdir : e.isDir
      · rw [if_pos hdir] at h
        cases hb : buildPath fs cfg (childItemPath rel e.name) with
        | error err =>
          rw [hb] at h
          simp [Bind.bind, Except.bind] at h
        | ok a =>
          rw [hb] at h
          simp only [Bind.bind, Except.bind] at h
          have hacc' : ∀ fi, FSItem.file fi ∈
              acc ++ [FSItem.folder ⟨e.name, childItemPath rel e.name⟩] →
              fi.size > v → fi.is_too_large = true := by
            intro fi hf
            rcases List.mem_append.1 hf with hl | hr
            · exact hacc fi hl
            · simp at hr
          by_cases hex : checkPathIsInExcludedFolder cfg a
          · rw [if_pos hex] at h
            exact ih acc hacc h
          · rw [if_neg hex] at h
            by_cases hbrk : lim ≠ 0 ∧
                (acc ++ [FSItem.folder ⟨e.name, childItemPath rel e.name⟩]).length ≥ lim
            · rw [if_pos hbrk] at h
              simp at h
              subst h
              exact hacc'
            · rw [if_neg hbrk] at h
              exact ih _ hacc' h
      · rw [if_neg hdir] at h
        simp only [ne_eq, not_true_eq_false, false_and, if_false] at h
        have htr : optTruthy cfg.max_return_file_size = true := by
          rw [hv]
          simpa [optTruthy] using hv0
        have hfi : ∀ fi, FSItem.file fi ∈
            acc ++ [FSItem.file (if optTruthy cfg.max_return_file_size then
              defineIfIsTooLarge ⟨e.name, childItemPath rel e.name, e.size, false⟩
                (cfg.max_return_file_size.getD 0)
              else ⟨e.name, childItemPath rel e.name, e.size, false⟩)] →
            fi.size > v → fi.is_too_large = true := by
          intro fi hf hsz
          rcases List.mem_append.1 hf with hl | hr
          · exact hacc fi hl hsz
          · simp only [List.mem_singleton, FSItem.file.injEq] at hr
            rw [htr, hv] at hr
            subst hr
            unfold defineIfIsTooLarge at hsz ⊢
            simp only [Option.getD_some] at hsz ⊢
            by_cases hgt : e.size > v
            · simp [hgt]
            · simp [hgt] at hsz
        by_cases hbrk : lim ≠ 0 ∧ (acc ++ [FSItem.file
            (if optTruthy cfg.max_return_file_size then
              defineIfIsTooLarge ⟨e.name, childItemPath rel e.name, e.size, false⟩
                (cfg.max_return_file_size.getD 0)
            else ⟨e.name, childItemPath rel e.name, e.size, false⟩)]).length ≥ lim
        · rw [if_pos hbrk] at h
          simp at h
          subst h
          exact hfi
        · rw [if_neg hbrk] at h
          exact ih _ hfi h

/-- Inversion for a successful `folder_contents` call. -/
theorem folderContents_inv (fs : FSState) (cfg : Config) (rel : String) (lim : Option Nat)
    (sid : Option String) (c : FolderContents)
    (h : folderContents fs cfg rel lim sid = .ok c) :
    ∃ fp items, resolveFullPath fs cfg (normFC rel) sid = .ok fp ∧ fs.isDir fp = true ∧
      fcLoop fs cfg (normFC rel) sid (effScanLimit cfg lim) (fs.scandir fp) [] = .ok items ∧
      c = loadContents ⟨fcFolderName (normFC rel), normFC rel⟩ items := by
  unfold folderContents at h
  dsimp only at h
  cases hr : resolveFullPath fs cfg (normFC rel) sid with
  | error e =>
    rw [hr] at h
    simp [Bind.bind, Except.bind] at h
  | ok fp =>
    rw [hr] at h
    simp only [Bind.bind, Except.bind] at h
    by_cases hd : fs.isDir fp
    · rw [if_neg (by simp [hd])] at h
      cases hl : fcLoop fs cfg (normFC rel) sid (effScanLimit cfg lim) (fs.scandir fp) [] with
      | error e =>
        rw [hl] at h
        simp at h
      | ok items =>
        rw [hl] at h
        simp only [Pure.pure, Except.pure, Except.ok.injEq] at h
        exact ⟨fp, items, rfl, by simp [hd], hl, h.symm⟩
    · rw [if_pos (by simp [hd])] at h
      simp at h

/-- `load_contents` partitions: each scanned item lands in exactly one of the
two output lists. -/
theorem loadContents_length (folder : FolderItem) (items : List FSItem) :
    (loadContents folder items).subfolders.length + (loadContents folder items).files.length
      = items.length := by
  unfold loadContents
  simp only
  induction items with
  | nil => rfl
  | cons x rest ih =>
    cases x with
    | folder f =>
      simp only [List.filterMap_cons, FSItem.folderPart, FSItem.filePart, List.length_cons]
      omega
    | file f =>
      simp only [List.filterMap_cons, FSItem.folderPart, FSItem.filePart, List.length_cons]
      omega

/-! ## Claim C5: scan limits and snapshot-root omission -/

/-- C5: for a successful folder listing, (a) a truthy effective scan limit
`N` (the given limit, or the configured default when absent) bounds the total
number of returned entries across subfolders and files by `N`; (b) a falsy
(0) effective limit means no truncation — the listing has exactly one entry
per kept scandir child; (c) when browsing the live root without a snapshot
id, no subfolder named like the snapshot root is returned unless
configuration says to include it. -/
theorem claim_C5 (fs : FSState) (cfg : Config) (rel : String) (lim : Option Nat)
    (sid : Option String) (c : FolderContents)
    (h : folderContents fs cfg rel lim sid = .ok c) :
    (effScanLimit cfg lim ≠ 0 →
      c.subfolders.length + c.files.length ≤ effScanLimit cfg lim) ∧
    (effScanLimit cfg lim = 0 →
      ∃ fp, resolveFullPath fs cfg (normFC rel) sid = .ok fp ∧
        c.subfolders.length + c.files.length
          = ((fs.scandir fp).filter (keptEntry fs cfg (normFC rel) sid)).length) ∧
    (normFC rel = "" → sidTruthy sid = false → cfg.snapshot_folder_name ≠ "" →
      cfg.include_snapshot_root = false →
      ∀ f ∈ c.subfolders, f.name ≠ cfg.snapshot_folder_name) := by
  obtain ⟨fp, items, hres, hdir, hloop, hc⟩ := folderContents_inv fs cfg rel lim sid c h
  refine ⟨?_, ?_, ?_⟩
  · intro hne
    have hlen := fcLoop_length_le fs cfg (normFC rel) sid (effScanLimit cfg lim) hne
      (fs.scandir fp) [] items (by simpa using Nat.pos_of_ne_zero hne) hloop
    rw [hc, loadContents_length]
    exact hlen
  · intro hz
    rw [hz] at hloop
    have := fcLoop_untruncated fs cfg (normFC rel) sid (fs.scandir fp) [] items hloop
    refine ⟨fp, hres, ?_⟩
    rw [hc, loadContents_length, this]
    simp
  · intro _ hsid hname hinc f hf
    have hmem : FSItem.folder f ∈ items := by
      rw [hc] at hf
      unfold loadContents at hf
      simp only [List.mem_filterMap] at hf
      obtain ⟨x, hx, hfx⟩ := hf
      cases x with
      | folder g =>
        simp [FSItem.folderPart] at hfx
        subst hfx
        exact hx
      | file g => simp [FSItem.folderPart] at hfx
    exact fcLoop_no_snapname fs cfg (normFC rel) sid (effScanLimit cfg lim) (fs.scandir fp)
      [] items hsid hinc hname (by simp) hloop f hmem

/-- Witness for C5 at a concrete world: listing the root of `exFsA` with a
scan limit of 1 yields one combined entry. -/
theorem claim_C5_witness :
    (FolderContents.mk ⟨"", ""⟩ [⟨"d", "d"⟩] []).subfolders.length
      + (FolderContents.mk ⟨"", ""⟩ [⟨"d", "d"⟩] []).files.length ≤ 1 :=
  (claim_C5 exFsA exCfgA "" (some 1) none (FolderContents.mk ⟨"", ""⟩ [⟨"d", "d"⟩] [])
    rfl).1 (by decide)

/-! ## Claim C10: the snapshot-name skip applies to directories at any depth,
never to files -/

/-- C10: in any live (non-snapshot) listing — at any relative path, not only
the root — with a configured snapshot folder name and `include_snapshot_root`
false, no returned subfolder bears the snapshot folder's name, while (with a
falsy scan limit, so that truncation cannot hide entries) every non-directory
scandir child does appear among the returned files, even one named exactly
like the snapshot folder. -/
theorem claim_C10 (fs : FSState) (cfg : Config) (rel : String) (lim : Option Nat)
    (c : FolderContents)
    (hname : cfg.snapshot_folder_name ≠ "") (hinc : cfg.include_snapshot_root = false)
    (h : folderContents fs cfg rel lim none = .ok c) :
    (∀ f ∈ c.subfolders, f.name ≠ cfg.snapshot_folder_name) ∧
    (effScanLimit cfg lim = 0 →
      ∀ fp, resolveFullPath fs cfg (normFC rel) none = .ok fp →
        ∀ e ∈ fs.scandir fp, e.isDir = false → e.name ∈ c.files.map FileItem.name) := by
  obtain ⟨fp, items, hres, hdir, hloop, hc⟩ := folderContents_inv fs cfg rel lim none c h
  constructor
  · intro f hf
    have hmem : FSItem.folder f ∈ items := by
      rw [hc] at hf
      unfold loadContents at hf
      simp only [List.mem_filterMap] at hf
      obtain ⟨x, hx, hfx⟩ := hf
      cases x with
      | folder g =>
        simp [FSItem.folderPart] at hfx
        subst hfx
        exact hx
      | file g => simp [FSItem.folderPart] at hfx
    exact fcLoop_no_snapname fs cfg (normFC rel) none (effScanLimit cfg lim) (fs.scandir fp)
      [] items rfl hinc hname (by simp) hloop f hmem
  · intro hz fp' hres' e he hedir
    have hfp : fp' = fp := by
      rw [hres] at hres'
      exact (Except.ok.inj hres').symm
    rw [hfp] at he
    rw [hz] at hloop
    have hitems := fcLoop_untruncated fs cfg (normFC rel) none (fs.scandir fp) [] items hloop
    have hkept : keptEntry fs cfg (normFC rel) none e = true := by
      unfold keptEntry
      simp [hedir]
    have hmem : entryItem cfg (normFC rel) e ∈ items := by
      rw [hitems]
      simp only [List.nil_append, List.mem_map]
      exact ⟨e, List.mem_filter.2 ⟨he, hkept⟩, rfl⟩
    have hfile : entryItem cfg (normFC rel) e = .file
        (if optTruthy cfg.max_return_file_size then
          defineIfIsTooLarge ⟨e.name, childItemPath (normFC rel) e.name, e.size, false⟩
            (cfg.max_return_file_size.getD 0)
        else ⟨e.name, childItemPath (normFC rel) e.name, e.size, false⟩) := by
      unfold entryItem
      simp [hedir]
    rw [hc]
    unfold loadContents
    simp only [List.mem_map, List.mem_filterMap]
    refine ⟨(if optTruthy cfg.max_return_file_size then
        defineIfIsTooLarge ⟨e.name, childItemPath (normFC rel) e.name, e.size, false⟩
          (cfg.max_return_file_size.getD 0)
      else ⟨e.name, childItemPath (normFC rel) e.name, e.size, false⟩),
      ⟨entryItem cfg (normFC rel) e, hmem, by rw [hfile]; rfl⟩, ?_⟩
    by_cases ht : optTruthy cfg.max_return_file_size
    · simp only [ht, if_true]
      unfold defineIfIsTooLarge
      by_cases hgt : e.size > cfg.max_return_file_size.getD 0 <;> simp [hgt]
    · simp [ht]

/-- World for the C10 witness: `/r/d` contains both a directory and a file
named exactly like the snapshot folder. -/
def exFsC10 : FSState :=
  { exFsA with
    scandir := fun p =>
      if p = "/r/d" then [⟨".snapshot", true, 0⟩, ⟨".snapshot", false, 5⟩] else [] }

/-- Witness for C10: in a non-root folder the directory child `.snapshot` is
skipped while the file child `.snapshot` is listed. -/
theorem claim_C10_witness :
    (".snapshot" : String) ∈ (FolderContents.mk ⟨"d", "d"⟩ []
      [⟨".snapshot", "d/.snapshot", 5, false⟩]).files.map FileItem.name :=
  (claim_C10 exFsC10 exCfgA "d" none
    (FolderContents.mk ⟨"d", "d"⟩ [] [⟨".snapshot", "d/.snapshot", 5, false⟩])
    (by decide) rfl rfl).2 rfl "/r/d" rfl ⟨".snapshot", false, 5⟩ (by decide) rfl

/-! ## Claim C6: size limits -/

/-- C6: for a resolvable non-directory path whose size exceeds the truthy
configured return limit `v`: every folder listing marks any such file entry
`is_too_large`; `get_file_content` with the `RETURN` kind fails with
`tooLarge`; with the `NONE` kind it succeeds with the full byte content; and
with the `READ` kind the check is against the separately configured read
threshold instead. -/
theorem claim_C6 (fs : FSState) (cfg : Config) (p fp : String) (v : Nat)
    (hres : resolveFullPath fs cfg p none = .ok fp)
    (hnd : fs.isDir fp = false)
    (hv : cfg.max_return_file_size = some v) (hv0 : v ≠ 0)
    (hsz : fs.size fp > v) :
    (∀ rel lim c, folderContents fs cfg rel lim none = .ok c →
      ∀ fi ∈ c.files, fi.size > v → fi.is_too_large = true) ∧
    getFileContent fs cfg p .RETURN none = .error (.tooLarge fp) ∧
    getFileContent fs cfg p .NONE none = .ok (fs.contentBytes fp) ∧
    (∀ w, cfg.max_read_file_size = some w →
      getFileContent fs cfg p .READ none =
        (if fs.size fp > w then .error (.tooLarge fp) else .ok (fs.contentBytes fp))) := by
  refine ⟨?_, ?_, ?_, ?_⟩
  · intro rel lim c hc fi hfi hgt
    obtain ⟨fp', items, hres', hdir', hloop, hceq⟩ := folderContents_inv fs cfg rel lim none c hc
    have hmem : FSItem.file fi ∈ items := by
      rw [hceq] at hfi
      unfold loadContents at hfi
      simp only [List.mem_filterMap] at hfi
      obtain ⟨x, hx, hfx⟩ := hfi
      cases x with
      | folder g => simp [FSItem.filePart] at hfx
      | file g =>
        simp [FSItem.filePart] at hfx
        subst hfx
        exact hx
    exact fcLoop_too_large fs cfg (normFC rel) none (effScanLimit cfg lim) v hv hv0
      (fs.scandir fp') [] items (by simp) hloop fi hmem hgt
  · unfold getFileContent
    rw [hres]
    unfold checkFileSizeIsNotTooLarge
    rw [hv]
    simp [Bind.bind, Except.bind, hsz]
  · unfold getFileContent
    rw [hres]
    unfold checkFileSizeIsNotTooLarge
    simp [Bind.bind, Except.bind, hnd, Pure.pure, Except.pure]
  · intro w hw
    unfold getFileContent
    rw [hres]
    unfold checkFileSizeIsNotTooLarge
    rw [hw]
    by_cases hgt : fs.size fp > w
    · simp [Bind.bind, Except.bind, hgt]
    · simp [Bind.bind, Except.bind, hgt, hnd, Pure.pure, Except.pure]

/-- Witness for C6: the 10MB file `/r/big.txt` against the 1MB return limit
of `exCfgA`. -/
theorem claim_C6_witness :
    getFileContent exFsA exCfgA "big.txt" SizeLimitKind.RETURN none
      = .error (.tooLarge "/r/big.txt") ∧
    getFileContent exFsA exCfgA "big.txt" SizeLimitKind.NONE none
      = .ok (exFsA.contentBytes "/r/big.txt") :=
  ⟨(claim_C6 exFsA exCfgA "big.txt" "/r/big.txt" 1048576 rfl rfl rfl (by decide)
      (by decide)).2.1,
   (claim_C6 exFsA exCfgA "big.txt" "/r/big.txt" 1048576 rfl rfl rfl (by decide)
      (by decide)).2.2.1⟩

/-! ## Claim C7: `list_snapshots` degrades to an empty listing -/

/-- C7: `list_snapshots` is total in the model (it returns a `SnapshotList`,
never an error), and each of the three degraded situations — snapshots
disabled, snapshot root not a directory, requested path excluded (or
otherwise rejected by the live resolution) — produces an empty snapshot list
carrying the configured snapshot-folder name and the normalized queried
path. -/
theorem claim_C7 (fs : FSState) (cfg : Config) (p : String) :
    (cfg.snapshot_folder_name = "" →
      listSnapshots fs cfg p = ⟨"", normRel p, []⟩) ∧
    (cfg.snapshot_folder_name ≠ "" → fs.isDir (snapRootDef fs cfg) = false →
      listSnapshots fs cfg p = ⟨cfg.snapshot_folder_name, normRel p, []⟩) ∧
    (∀ ap, buildPath fs cfg (normRel p) = .ok ap →
      checkPathIsInExcludedFolder cfg ap = true →
      listSnapshots fs cfg p = ⟨cfg.snapshot_folder_name, normRel p, []⟩) := by
  refine ⟨?_, ?_, ?_⟩
  · intro hdis
    unfold listSnapshots
    simp [hdis]
  · intro hname hroot
    unfold listSnapshots getSnapshotRoot
    simp [hname, hroot]
  · intro ap hb hex
    by_cases hname : cfg.snapshot_folder_name = ""
    · unfold listSnapshots
      simp [hname]
    · have hens : ensurePathAllowed fs cfg (normRel p) = .error (.notFound ap) := by
        unfold ensurePathAllowed requirePathIsInExcludedFolder
        rw [hb]
        simp [Bind.bind, Except.bind, hex]
      unfold listSnapshots getSnapshotRoot
      by_cases hroot : fs.isDir (snapRootDef fs cfg)
      · simp [hname, hroot, hens]
      · simp [hname, hroot]

/-- Configuration with snapshots disabled, for the C7 witness. -/
def exCfgNoSnap : Config := { exCfgA with snapshot_folder_name := "" }

/-- Witness for C7: with snapshots disabled, listing snapshots of `"x"`
returns the empty listing (with the empty configured name). -/
theorem claim_C7_witness :
    listSnapshots exFsA exCfgNoSnap "x" = ⟨"", "x", []⟩ :=
  (claim_C7 exFsA exCfgNoSnap "x").1 rfl

/-! ## Order-theoretic facts about the snapshot sort key -/

theorem natLexLt_cons_cons (x y : Nat) (xs ys : List Nat) :
    natLexLt (x :: xs) (y :: ys) = (decide (x < y) || (decide (x = y) && natLexLt xs ys)) := rfl

theorem natLexLt_nil_right (a : List Nat) : natLexLt a [] = false := by
  cases a <;> rfl

theorem natLexLt_irrefl (a : List Nat) : natLexLt a a = false := by
  induction a with
  | nil => rfl
  | cons x xs ih => simp [natLexLt_cons_cons, ih]

theorem natLexLt_trans (a : List Nat) : ∀ b c, natLexLt a b = true → natLexLt b c = true →
    natLexLt a c = true := by
  induction a with
  | nil =>
    intro b c hab hbc
    cases c with
    | nil =>
      rw [natLexLt_nil_right] at hbc
      exact absurd hbc (by simp)
    | cons z zs => rfl
  | cons x xs ih =>
    intro b c hab hbc
    cases b with
    | nil =>
      rw [natLexLt_nil_right] at hab
      exact absurd hab (by simp)
    | cons y ys =>
      cases c with
      | nil =>
        rw [natLexLt_nil_right] at hbc
        exact absurd hbc (by simp)
      | cons z zs =>
        rw [natLexLt_cons_cons] at hab hbc ⊢
        simp only [Bool.or_eq_true, Bool.and_eq_true, decide_eq_true_eq] at hab hbc ⊢
        rcases hab with h1 | ⟨he1, h2⟩
        · rcases hbc with g1 | ⟨ge1, g2⟩
          · exact Or.inl (Nat.lt_trans h1 g1)
          · exact Or.inl (ge1 ▸ h1)
        · rcases hbc with g1 | ⟨ge1, g2⟩
          · exact Or.inl (he1 ▸ g1)
          · exact Or.inr ⟨he1.trans ge1, ih ys zs h2 g2⟩

theorem natLexLt_connex (a : List Nat) : ∀ b, natLexLt a b = true ∨ a = b ∨
    natLexLt b a = true := by
  induction a with
  | nil =>
    intro b
    cases b with
    | nil => exact Or.inr (Or.inl rfl)
    | cons y ys => exact Or.inl rfl
  | cons x xs ih =>
    intro b
    cases b with
    | nil => exact Or.inr (Or.inr rfl)
    | cons y ys =>
      rcases Nat.lt_trichotomy x y with hlt | heq | hgt
      · exact Or.inl (by rw [natLexLt_cons_cons]; simp [hlt])
      · rcases ih ys with h1 | h2 | h3
        · exact Or.inl (by rw [natLexLt_cons_cons]; simp [heq, h1])
        · exact Or.inr (Or.inl (by rw [heq, h2]))
        · exact Or.inr (Or.inr (by rw [natLexLt_cons_cons]; simp [heq.symm, h3]))
      · exact Or.inr (Or.inr (by rw [natLexLt_cons_cons]; simp [hgt]))

theorem snapDescLe_trans (a b c : SnapshotSummary) (hab : snapDescLe a b = true)
    (hbc : snapDescLe b c = true) : snapDescLe a c = true := by
  unfold snapDescLe at hab hbc ⊢
  simp only [Bool.not_eq_true'] at hab hbc ⊢
  by_contra hac
  simp only [Bool.not_eq_false] at hac
  rcases natLexLt_connex (snapKey a) (snapKey b) with h1 | h2 | h3
  · rw [h1] at hab
    exact absurd hab (by simp)
  · rw [h2] at hac
    rw [hac] at hbc
    exact absurd hbc (by simp)
  · have := natLexLt_trans _ _ _ h3 hac
    rw [this] at hbc
    exact absurd hbc (by simp)

theorem snapDescLe_total (a b : SnapshotSummary) :
    snapDescLe a b = true ∨ snapDescLe b a = true := by
  unfold snapDescLe
  simp only [Bool.not_eq_true']
  by_cases h : natLexLt (snapKey a) (snapKey b) = true
  · right
    by_cases h2 : natLexLt (snapKey b) (snapKey a) = true
    · have := natLexLt_trans _ _ _ h h2
      rw [natLexLt_irrefl] at this
      exact absurd this (by simp)
    · simpa using h2
  · left
    simpa using h

/-! ## Claim C4: snapshot listing order -/

/-- World for the C4 example: the three snapshots of the claim, deliberately
scrambled in enumeration order. -/
def exFsC4 : FSState :=
  { exFsA with
    scandir := fun p =>
      if p = "/r/.snapshot" then
        [⟨"2024_01_01_10.00", true, 0⟩, ⟨"weird_name", true, 0⟩,
         ⟨"2024_02_01_10.00", true, 0⟩]
      else [] }

/-- World for the C4 counterexample: a snapshot id that parses to exactly
`datetime.min` next to one that does not parse at all. -/
def exFsC4x : FSState :=
  { exFsA with
    scandir := fun p =>
      if p = "/r/.snapshot" then
        [⟨"0001_01_01_00.00", true, 0⟩, ⟨"zzzz", true, 0⟩]
      else [] }

/-- C4 (counterexample to the claim as stated): the claim says a descriptor
whose id does not parse "appears after all parsed entries"; but an id that
parses to exactly `datetime.min` (`"0001_01_01_00.00"`) shares the unparsed
entries' key timestamp, and the id tie-break then puts the unparsed
`"zzzz"` *before* this parsed entry. -/
theorem claim_C4_counterexample :
    parseSnapshotTimestamp "0001_01_01_00.00" = some tsMin ∧
    parseSnapshotTimestamp "zzzz" = none ∧
    (listSnapshots exFsC4x exCfgA "").snapshots.map SnapshotSummary.id
      = ["zzzz", "0001_01_01_00.00"] :=
  ⟨rfl, rfl, rfl⟩

/-- C4 (amended): `list_snapshots` returns its descriptors ordered descending
by the pair `(parsedTimestamp, id)` — an unparsed id sorting as the oldest
possible timestamp (`datetime.min`), hence after every entry with a strictly
newer parsed timestamp, with key ties broken by descending id — and in
particular the claim's example `{"2024_01_01_10.00", "2024_02_01_10.00",
"weird_name"}` comes out as `["2024_02_01_10.00", "2024_01_01_10.00",
"weird_name"]`. -/
theorem claim_C4_amended :
    (∀ fs cfg p, List.Pairwise (fun a b => snapDescLe a b = true)
      ((listSnapshots fs cfg p).snapshots)) ∧
    (listSnapshots exFsC4 exCfgA "").snapshots.map SnapshotSummary.id
      = ["2024_02_01_10.00", "2024_01_01_10.00", "weird_name"] := by
  constructor
  · intro fs cfg p
    unfold listSnapshots
    by_cases hname : cfg.snapshot_folder_name = ""
    · simp [hname]
    · simp only [hname, if_false]
      cases hroot : getSnapshotRoot fs cfg with
      | error e => simp
      | ok snapshotRoot =>
        cases hens : ensurePathAllowed fs cfg (normRel p) with
        | error e => simp
        | ok u =>
          simp only
          exact @List.sorted_insertionSort SnapshotSummary
            (fun a b => snapDescLe a b = true) _ ⟨snapDescLe_total⟩
            ⟨fun a b c => snapDescLe_trans a b c⟩ _
  · rfl

/-! ## Split / join / component lemmas for path safety -/

theorem splitL_ne_nil (l : List Char) : splitL l ≠ [] := by
  cases l with
  | nil => simp [splitL]
  | cons c cs =>
    unfold splitL
    by_cases h : c = '/'
    · simp [h]
    · simp only [h, if_false]
      unfold consHead
      cases splitL cs <;> simp

theorem splitL_append_slash (a b : List Char) :
    splitL (a ++ '/' :: b) = splitL a ++ splitL b := by
  induction a with
  | nil => simp [splitL]
  | cons c cs ih =>
    by_cases h : c = '/'
    · simp [splitL, h, ih]
    · simp only [List.cons_append, splitL, h, if_false]
      rw [show cs.append ('/' :: b) = cs ++ '/' :: b from rfl, ih]
      cases hs : splitL cs with
      | nil => exact absurd hs (splitL_ne_nil cs)
      | cons p ps => simp [consHead, hs]

theorem splitL_no_slash (a : List Char) (h : '/' ∉ a) : splitL a = [a] := by
  induction a with
  | nil => rfl
  | cons c cs ih =>
    simp only [List.mem_cons, not_or] at h
    unfold splitL
    have hc : ¬ c = '/' := fun hh => h.1 hh.symm
    rw [if_neg hc, ih h.2]
    rfl

theorem mem_splitL_no_slash (l : List Char) : ∀ c ∈ splitL l, '/' ∉ c := by
  induction l with
  | nil =>
    intro c hc
    simp [splitL] at hc
    simp [hc]
  | cons x xs ih =>
    intro c hc
    unfold splitL at hc
    by_cases h : x = '/'
    · rw [if_pos h] at hc
      rcases List.mem_cons.1 hc with h1 | h2
      · simp [h1]
      · exact ih c h2
    · rw [if_neg h] at hc
      cases hs : splitL xs with
      | nil => exact absurd hs (splitL_ne_nil xs)
      | cons p ps =>
        rw [hs] at hc
        unfold consHead at hc
        rcases List.mem_cons.1 hc with h1 | h2
        · subst h1
          intro hmem
          rcases List.mem_cons.1 hmem with h3 | h4
          · exact h h3.symm
          · exact ih p (hs ▸ List.mem_cons_self p ps) h4
        · exact ih c (hs ▸ List.mem_cons_of_mem p h2)

/-- The components `posixpath.commonpath` keeps: nonempty, not `"."` and (as
split output) free of the separator. -/
def GoodComps (l : List (List Char)) : Prop :=
  ∀ c ∈ l, c ≠ [] ∧ c ≠ ['.'] ∧ '/' ∉ c

theorem filteredCompsL_good (l : List Char) : GoodComps (filteredCompsL l) := by
  intro c hc
  unfold filteredCompsL at hc
  rw [List.mem_filter] at hc
  obtain ⟨hmem, hcond⟩ := hc
  simp only [decide_eq_true_eq] at hcond
  exact ⟨hcond.1, hcond.2, mem_splitL_no_slash l c hmem⟩

theorem splitL_cons_slash (x : List Char) : splitL ('/' :: x) = [] :: splitL x := rfl

theorem filteredCompsL_slash_join (l : List (List Char)) (h : GoodComps l) :
    filteredCompsL ('/' :: joinL l) = l := by
  induction l with
  | nil => rfl
  | cons c rest ih =>
    obtain ⟨hne, hdot, hslash⟩ := h c (List.mem_cons_self c rest)
    have hgrest : GoodComps rest := fun x hx => h x (List.mem_cons_of_mem c hx)
    have hpnil : (decide (([] : List Char) ≠ [] ∧ ([] : List Char) ≠ ['.'])) = false := rfl
    have hpc : (decide (c ≠ [] ∧ c ≠ ['.'])) = true := by simp [hne, hdot]
    cases rest with
    | nil =>
      show filteredCompsL ('/' :: c) = [c]
      unfold filteredCompsL
      rw [splitL_cons_slash, splitL_no_slash c hslash]
      simp only [List.filter_cons, hpnil, hpc, Bool.false_eq_true, if_false, if_true,
        List.filter_nil]
    | cons r rs =>
      show filteredCompsL ('/' :: (c ++ '/' :: joinL (r :: rs))) = c :: r :: rs
      unfold filteredCompsL
      rw [splitL_cons_slash, splitL_append_slash, splitL_no_slash c hslash]
      have ihr := ih hgrest
      unfold filteredCompsL at ihr
      rw [splitL_cons_slash] at ihr
      simp only [List.filter_cons, List.filter_append, hpnil, hpc, Bool.false_eq_true,
        if_false, if_true, List.singleton_append, List.cons_append, List.nil_append] at ihr ⊢
      rw [ihr]

theorem commonPrefixL_comm {α : Type} [DecidableEq α] (a : List α) : ∀ b,
    commonPrefixL a b = commonPrefixL b a := by
  induction a with
  | nil => intro b; cases b <;> rfl
  | cons x xs ih =>
    intro b
    cases b with
    | nil => rfl
    | cons y ys =>
      unfold commonPrefixL
      by_cases h : x = y
      · subst h
        simp [ih ys]
      · rw [if_neg h, if_neg (fun hh => h hh.symm)]

theorem commonPrefixL_prefix_left {α : Type} [DecidableEq α] (a : List α) : ∀ b,
    commonPrefixL a b <+: a := by
  induction a with
  | nil => intro b; cases b <;> exact List.nil_prefix
  | cons x xs ih =>
    intro b
    cases b with
    | nil => exact List.nil_prefix
    | cons y ys =>
      unfold commonPrefixL
      by_cases h : x = y
      · rw [if_pos h]
        obtain ⟨t, ht⟩ := ih ys
        exact ⟨t, by rw [List.cons_append, ht]⟩
      · rw [if_neg h]
        exact List.nil_prefix

theorem commonPrefixL_self {α : Type} [DecidableEq α] (a : List α) :
    commonPrefixL a a = a := by
  induction a with
  | nil => rfl
  | cons x xs ih => simp [commonPrefixL, ih]

theorem lexLtL_asymm {α : Type} [DecidableEq α] (ltE : α → α → Bool)
    (hlt : ∀ x y, ltE x y = true → ltE y x = true → False) :
    ∀ a b, lexLtL ltE a b = true → lexLtL ltE b a = true → False := by
  intro a
  induction a with
  | nil => intro b h1 h2; cases b <;> simp [lexLtL] at h1 h2
  | cons x xs ih =>
    intro b h1 h2
    cases b with
    | nil => simp [lexLtL] at h1
    | cons y ys =>
      simp only [lexLtL, Bool.or_eq_true, Bool.and_eq_true, decide_eq_true_eq] at h1 h2
      rcases h1 with hl1 | ⟨he1, hr1⟩
      · rcases h2 with hl2 | ⟨he2, hr2⟩
        · exact hlt x y hl1 hl2
        · exact absurd (he2 ▸ hl1) (fun hh => hlt x x hh hh)
      · rcases h2 with hl2 | ⟨he2, hr2⟩
        · exact absurd (he1 ▸ hl2) (fun hh => hlt y y hh hh)
        · exact ih ys hr1 hr2

theorem lexLtL_connex {α : Type} [DecidableEq α] (ltE : α → α → Bool)
    (hlt : ∀ x y, ltE x y = false → ltE y x = false → x = y) :
    ∀ a b, lexLtL ltE a b = false → lexLtL ltE b a = false → a = b := by
  intro a
  induction a with
  | nil => intro b h1 h2; cases b with
    | nil => rfl
    | cons y ys => simp [lexLtL] at h1
  | cons x xs ih =>
    intro b h1 h2
    cases b with
    | nil => simp [lexLtL] at h2
    | cons y ys =>
      simp only [lexLtL, Bool.or_eq_true, Bool.and_eq_true, decide_eq_true_eq,
        Bool.or_eq_false_iff, Bool.and_eq_false_iff] at h1 h2
      obtain ⟨hxy, hrest1⟩ := h1
      obtain ⟨hyx, hrest2⟩ := h2
      have hxe : x = y := hlt x y hxy hyx
      subst hxe
      rcases hrest1 with hd | ht1
      · simp at hd
      · rcases hrest2 with hd | ht2
        · simp at hd
        · rw [ih ys ht1 ht2]

theorem charLtB_asymm (x y : Char) : charLtB x y = true → charLtB y x = true → False := by
  unfold charLtB
  simp only [decide_eq_true_eq]
  intro h1 h2
  exact absurd h2 (lt_asymm h1)

theorem charLtB_connex (x y : Char) : charLtB x y = false → charLtB y x = false → x = y := by
  unfold charLtB
  simp only [decide_eq_false_iff_not]
  intro h1 h2
  exact le_antisymm (not_lt.1 h2) (not_lt.1 h1)

theorem strLtC_asymm (x y : List Char) : strLtC x y = true → strLtC y x = true → False :=
  lexLtL_asymm charLtB charLtB_asymm x y

theorem strLtC_connex (x y : List Char) : strLtC x y = false → strLtC y x = false → x = y :=
  lexLtL_connex charLtB charLtB_connex x y

theorem compsLt_asymm (x y : List (List Char)) :
    compsLt x y = true → compsLt y x = true → False :=
  lexLtL_asymm strLtC strLtC_asymm x y

theorem compsLt_connex (x y : List (List Char)) :
    compsLt x y = false → compsLt y x = false → x = y :=
  lexLtL_connex strLtC strLtC_connex x y

/-- The boundary check of `_build_path` / `_build_snapshot_path` is sound:
if `commonpath([a, b])` returns `b` itself (for an absolute `a`), then `b`'s
filtered components are a prefix of `a`'s â `a` lies at or below `b`. -/
theorem commonpath2L_eq_base (a b c : List Char)
    (habs : isAbsB a = true)
    (h : commonpath2L a b = some c) (hcb : c = b) :
    filteredCompsL b <+: filteredCompsL a := by
  unfold commonpath2L at h
  by_cases hmix : isAbsB a ≠ isAbsB b
  · rw [if_pos hmix] at h
    exact absurd h (by simp)
  · rw [if_neg hmix] at h
    simp only [habs, if_true, Option.some.injEq] at h
    have hfin : (['/'] ++ joinL (commonPrefixL (filteredCompsL a) (filteredCompsL b)) = c) →
        filteredCompsL b <+: filteredCompsL a := by
      intro hc
      have hpa : commonPrefixL (filteredCompsL a) (filteredCompsL b) <+: filteredCompsL a :=
        commonPrefixL_prefix_left _ _
      have hgood : GoodComps (commonPrefixL (filteredCompsL a) (filteredCompsL b)) :=
        fun x hx => filteredCompsL_good a x (hpa.subset hx)
      have hbeq : b = '/' :: joinL (commonPrefixL (filteredCompsL a) (filteredCompsL b)) := by
        conv_lhs => rw [← hcb]
        exact hc.symm.trans (List.singleton_append)
      have hb : filteredCompsL b = commonPrefixL (filteredCompsL a) (filteredCompsL b) :=
        (congrArg filteredCompsL hbeq).trans (filteredCompsL_slash_join _ hgood)
      rw [hb]
      exact hpa
    by_cases h1 : compsLt (filteredCompsL b) (filteredCompsL a)
    · by_cases h2 : compsLt (filteredCompsL a) (filteredCompsL b)
      · exact absurd h2 (fun hh => absurd (compsLt_asymm _ _ h1 hh) (fun f => f))
      · rw [if_pos h1, if_neg h2, commonPrefixL_comm] at h
        exact hfin h
    · by_cases h2 : compsLt (filteredCompsL a) (filteredCompsL b)
      · rw [if_neg h1, if_pos h2] at h
        exact hfin h
      · have heq : filteredCompsL b = filteredCompsL a :=
          compsLt_connex _ _ (by simpa using h1) (by simpa using h2)
        rw [heq]

/-! ## Absoluteness propagation -/

theorem startsWithL_slash (l : List Char) : startsWithL ['/'] l = isAbsB l := by
  cases l with
  | nil => rfl
  | cons x xs =>
    unfold startsWithL isAbsB
    by_cases hx : x = '/'
    · subst hx
      rfl
    · have h1 : ('/' == x) = false := beq_eq_false_iff_ne.2 (fun hh => hx hh.symm)
      have h2 : ((x :: xs).head? == some '/') = false := by
        simp only [List.head?]
        exact beq_eq_false_iff_ne.2 (by simp [hx])
      rw [h1, h2]
      rfl

theorem join2L_isAbs (a b : List Char) (h : isAbsB a = true) : isAbsB (join2L a b) = true := by
  unfold isAbsB at h
  cases a with
  | nil => simp at h
  | cons x xs =>
    simp only [List.head?, Option.some.injEq, beq_iff_eq] at h
    subst h
    unfold join2L
    by_cases hb : b.head? = some '/'
    · rw [if_pos hb]
      unfold isAbsB
      rw [hb]
      rfl
    · rw [if_neg hb]
      by_cases hend : ('/' :: xs : List Char) = [] ∨ ('/' :: xs).getLast? = some '/'
      · rw [if_pos hend]
        rfl
      · rw [if_neg hend]
        rfl

theorem initSlashes_pos_of_abs (l : List Char) (h : isAbsB l = true) : initSlashes l ≠ 0 := by
  unfold initSlashes
  rw [startsWithL_slash, h]
  simp only [if_true]
  split <;> simp

theorem isAbsB_replicate_append (k : Nat) (hk : k ≠ 0) (t : List Char) :
    isAbsB (List.replicate k '/' ++ t) = true := by
  cases k with
  | zero => exact absurd rfl hk
  | succ n => rfl

theorem normpathL_isAbs (p : List Char) (h : isAbsB p = true) : isAbsB (normpathL p) = true := by
  unfold normpathL
  have hne : p ≠ [] := by
    cases p
    · simp [isAbsB] at h
    · simp
  rw [if_neg hne]
  have hk := initSlashes_pos_of_abs p h
  have habs := isAbsB_replicate_append (initSlashes p) hk
    (joinL (normCompsFrom (initSlashes p) [] (splitL p)))
  rw [if_neg ?hres]
  · exact habs
  case hres =>
    intro hres
    rw [hres] at habs
    simp [isAbsB] at habs

theorem abspathS_of_abs (cwd : String) (p : String) (h : isAbsB p.data = true) :
    abspathS cwd p = normpathS p := by
  unfold abspathS
  rw [if_pos ?_]
  unfold IsAbsS
  unfold isAbsB at h
  simpa using h

theorem isAbsS_of_isAbsB (s : String) (h : isAbsB s.data = true) : IsAbsS s := by
  unfold IsAbsS
  unfold isAbsB at h
  simpa using h

theorem isAbsB_of_isAbsS (s : String) (h : IsAbsS s) : isAbsB s.data = true := by
  unfold IsAbsS at h
  unfold isAbsB
  simp [h]

/-! ## Traversal safety of `_build_path` and `_build_snapshot_path` -/

theorem commonpathS_of_abs (a b : String) (ha : isAbsB a.data = true)
    (hb : isAbsB b.data = true) :
    ∃ c, commonpathS a b = some c := by
  unfold commonpathS commonpath2L
  rw [if_neg (by rw [ha, hb]; simp)]
  exact ⟨_, rfl⟩

theorem buildPath_safe (fs : FSState) (cfg : Config)
    (habs : IsAbsS cfg.file_system_path)
    (hcanon : normpathS cfg.file_system_path = cfg.file_system_path) (rel : String) :
    buildPath fs cfg rel = .error .accessDenied ∨
    ∃ p, buildPath fs cfg rel = .ok p ∧ IsAbsS p ∧
      filteredCompsL cfg.file_system_path.data <+: filteredCompsL p.data := by
  unfold buildPath
  by_cases hspec : rel = "" ∨ rel = "/" ∨ rel = "."
  · rw [if_pos hspec]
    exact Or.inr ⟨_, rfl, habs, List.prefix_refl _⟩
  · rw [if_neg hspec]
    dsimp only
    have habsB : isAbsB cfg.file_system_path.data = true := isAbsB_of_isAbsS _ habs
    have hpj : isAbsB (join2S cfg.file_system_path rel).data = true :=
      join2L_isAbs _ _ habsB
    have habsPath : abspathS fs.cwd (join2S cfg.file_system_path rel)
        = normpathS (join2S cfg.file_system_path rel) := abspathS_of_abs _ _ hpj
    have hbase : abspathS fs.cwd cfg.file_system_path = cfg.file_system_path := by
      rw [abspathS_of_abs _ _ habsB, hcanon]
    rw [habsPath, hbase]
    have habsNorm : isAbsB (normpathS (join2S cfg.file_system_path rel)).data = true :=
      normpathL_isAbs _ hpj
    obtain ⟨c, hc⟩ := commonpathS_of_abs (normpathS (join2S cfg.file_system_path rel))
      cfg.file_system_path habsNorm habsB
    rw [hc]
    dsimp only
    by_cases hne : c ≠ cfg.file_system_path
    · rw [if_pos hne]
      exact Or.inl rfl
    · rw [if_neg hne]
      push_neg at hne
      refine Or.inr ⟨_, rfl, isAbsS_of_isAbsB _ habsNorm, ?_⟩
      unfold commonpathS at hc
      rw [Option.map_eq_some'] at hc
      obtain ⟨l, hl, hlc⟩ := hc
      exact commonpath2L_eq_base _ _ _ habsNorm hl
        ((congrArg String.data hlc).trans (congrArg String.data hne))

theorem buildSnapshotPath_safe (fs : FSState) (cfg : Config) (sid rel : String)
    (habs : IsAbsS cfg.file_system_path)
    (hname : cfg.snapshot_folder_name ≠ "")
    (hrootdir : fs.isDir (snapRootDef fs cfg) = true)
    (hbasedir : fs.isDir (snapBaseDef fs cfg sid) = true) :
    buildSnapshotPath fs cfg sid rel = .error .accessDenied ∨
    ∃ p, buildSnapshotPath fs cfg sid rel = .ok p ∧ IsAbsS p ∧
      filteredCompsL (snapBaseDef fs cfg sid).data <+: filteredCompsL p.data := by
  have habsB : isAbsB cfg.file_system_path.data = true := isAbsB_of_isAbsS _ habs
  have hj1 : isAbsB (join2S cfg.file_system_path cfg.snapshot_folder_name).data = true :=
    join2L_isAbs _ _ habsB
  have habsRoot : isAbsB (snapRootDef fs cfg).data = true := by
    unfold snapRootDef
    rw [abspathS_of_abs _ _ hj1]
    exact normpathL_isAbs _ hj1
  have hj2 : isAbsB (join2S (snapRootDef fs cfg) sid).data = true :=
    join2L_isAbs _ _ habsRoot
  have habsBase : isAbsB (snapBaseDef fs cfg sid).data = true := by
    unfold snapBaseDef
    rw [abspathS_of_abs _ _ hj2]
    exact normpathL_isAbs _ hj2
  unfold buildSnapshotPath getSnapshotRoot
  rw [if_neg hname, if_pos hrootdir]
  simp only [Bind.bind, Except.bind]
  rw [show abspathS fs.cwd (join2S (snapRootDef fs cfg) sid) = snapBaseDef fs cfg sid from rfl]
  rw [if_neg (by rw [hbasedir]; simp)]
  by_cases hspec : rel = "" ∨ rel = "/" ∨ rel = "\\"
  · rw [if_pos hspec]
    exact Or.inr ⟨_, rfl, isAbsS_of_isAbsB _ habsBase, List.prefix_refl _⟩
  · rw [if_neg hspec]
    have hpj : isAbsB (join2S (snapBaseDef fs cfg sid) rel).data = true :=
      join2L_isAbs _ _ habsBase
    have habsPath : abspathS fs.cwd (join2S (snapBaseDef fs cfg sid) rel)
        = normpathS (join2S (snapBaseDef fs cfg sid) rel) := abspathS_of_abs _ _ hpj
    rw [habsPath]
    have habsNorm : isAbsB (normpathS (join2S (snapBaseDef fs cfg sid) rel)).data = true :=
      normpathL_isAbs _ hpj
    obtain ⟨c, hc⟩ := commonpathS_of_abs (normpathS (join2S (snapBaseDef fs cfg sid) rel))
      (snapBaseDef fs cfg sid) habsNorm habsBase
    rw [hc]
    dsimp only
    by_cases hne : c ≠ snapBaseDef fs cfg sid
    · rw [if_pos hne]
      exact Or.inl rfl
    · rw [if_neg hne]
      push_neg at hne
      refine Or.inr ⟨_, rfl, isAbsS_of_isAbsB _ habsNorm, ?_⟩
      unfold commonpathS at hc
      rw [Option.map_eq_some'] at hc
      obtain ⟨l, hl, hlc⟩ := hc
      exact commonpath2L_eq_base _ _ _ habsNorm hl
        ((congrArg String.data hlc).trans (congrArg String.data hne))

/-! ## Claim C1: traversal safety -/

/-- C1: for a canonical absolute configured root, `_build_path` either fails
with `accessDenied` or returns an absolute path whose components extend the
root's (a descendant of — or equal to — the live root); and, for any
snapshot id whose snapshot base directory exists, `_build_snapshot_path`
either fails with `accessDenied` or returns an absolute path extending the
snapshot base.  In particular neither ever returns a path outside its root
of reference, for any caller-supplied relative path, `..` segments
included. -/
theorem claim_C1 (fs : FSState) (cfg : Config)
    (habs : IsAbsS cfg.file_system_path)
    (hcanon : normpathS cfg.file_system_path = cfg.file_system_path) :
    (∀ rel, buildPath fs cfg rel = .error .accessDenied ∨
      ∃ p, buildPath fs cfg rel = .ok p ∧ IsAbsS p ∧
        filteredCompsL cfg.file_system_path.data <+: filteredCompsL p.data) ∧
    (∀ sid rel, cfg.snapshot_folder_name ≠ "" →
      fs.isDir (snapRootDef fs cfg) = true → fs.isDir (snapBaseDef fs cfg sid) = true →
      buildSnapshotPath fs cfg sid rel = .error .accessDenied ∨
      ∃ p, buildSnapshotPath fs cfg sid rel = .ok p ∧ IsAbsS p ∧
        filteredCompsL (snapBaseDef fs cfg sid).data <+: filteredCompsL p.data) :=
  ⟨buildPath_safe fs cfg habs hcanon,
   fun sid rel hname hroot hbase => buildSnapshotPath_safe fs cfg sid rel habs hname hroot hbase⟩

/-- Witness for C1: in the concrete world `exFsA`, resolving the traversal
path `"../../etc/passwd"` is denied outright. -/
theorem claim_C1_witness :
    buildPath exFsA exCfgA "../../etc/passwd" = .error .accessDenied := by
  rcases (claim_C1 exFsA exCfgA rfl rfl).1 "../../etc/passwd" with h | ⟨p, hp, _, _⟩
  · exact h
  · rw [show buildPath exFsA exCfgA "../../etc/passwd" = .error .accessDenied from rfl] at hp
    exact absurd hp (by simp)

/-! ## Stack lemmas for `normpath` composition -/

theorem normCompsFrom_cons (k : Nat) (acc : List (List Char)) (c : List Char)
    (rest : List (List Char)) :
    normCompsFrom k acc (c :: rest) =
      (if c = [] ∨ c = ['.'] then normCompsFrom k acc rest
      else if c ≠ ['.', '.'] ∨ (k = 0 ∧ acc = []) ∨ acc.getLast? = some ['.', '.'] then
        normCompsFrom k (acc ++ [c]) rest
      else normCompsFrom k acc.dropLast rest) := rfl

theorem normCompsFrom_append (k : Nat) (l1 : List (List Char)) : ∀ (acc l2 : List (List Char)),
    normCompsFrom k acc (l1 ++ l2) = normCompsFrom k (normCompsFrom k acc l1) l2 := by
  induction l1 with
  | nil => intro acc l2; rfl
  | cons c cs ih =>
    intro acc l2
    rw [List.cons_append, normCompsFrom_cons, normCompsFrom_cons]
    by_cases h1 : c = [] ∨ c = ['.']
    · rw [if_pos h1, if_pos h1, ih]
    · rw [if_neg h1, if_neg h1]
      by_cases h2 : c ≠ ['.', '.'] ∨ (k = 0 ∧ acc = []) ∨ acc.getLast? = some ['.', '.']
      · rw [if_pos h2, if_pos h2, ih]
      · rw [if_neg h2, if_neg h2, ih]

theorem normCompsFrom_k_irrel (k k' : Nat) (hk : k ≠ 0) (hk' : k' ≠ 0)
    (comps : List (List Char)) : ∀ acc,
    normCompsFrom k acc comps = normCompsFrom k' acc comps := by
  induction comps with
  | nil => intro acc; rfl
  | cons c cs ih =>
    intro acc
    rw [normCompsFrom_cons, normCompsFrom_cons]
    by_cases h1 : c = [] ∨ c = ['.']
    · rw [if_pos h1, if_pos h1, ih]
    · rw [if_neg h1, if_neg h1]
      by_cases h2 : c ≠ ['.', '.'] ∨ acc.getLast? = some ['.', '.']
      · rw [if_pos (by tauto), if_pos (by tauto), ih]
      · rw [if_neg (by tauto), if_neg (by tauto), ih]

/-- Elements that can sit on a normalized absolute path's component stack. -/
def GoodStack (l : List (List Char)) : Prop :=
  ∀ c ∈ l, c ≠ [] ∧ c ≠ ['.'] ∧ c ≠ ['.', '.'] ∧ '/' ∉ c

theorem goodStack_append_singleton (acc : List (List Char)) (c : List Char)
    (hacc : GoodStack acc) (hc : c ≠ [] ∧ c ≠ ['.'] ∧ c ≠ ['.', '.'] ∧ '/' ∉ c) :
    GoodStack (acc ++ [c]) := by
  intro x hx
  rcases List.mem_append.1 hx with h | h
  · exact hacc x h
  · simp at h
    subst h
    exact hc

theorem goodStack_dropLast (acc : List (List Char)) (hacc : GoodStack acc) :
    GoodStack acc.dropLast :=
  fun x hx => hacc x ((List.dropLast_sublist acc).subset hx)

theorem normCompsFrom_goodStack (k : Nat) (hk : k ≠ 0) (comps : List (List Char))
    (hcomps : ∀ c ∈ comps, '/' ∉ c) : ∀ acc, GoodStack acc →
    GoodStack (normCompsFrom k acc comps) := by
  induction comps with
  | nil => intro acc hacc; exact hacc
  | cons c cs ih =>
    intro acc hacc
    have hcs : ∀ x ∈ cs, '/' ∉ x := fun x hx => hcomps x (List.mem_cons_of_mem c hx)
    have hcslash : '/' ∉ c := hcomps c (List.mem_cons_self c cs)
    unfold normCompsFrom
    by_cases h1 : c = [] ∨ c = ['.']
    · rw [if_pos h1]
      exact ih hcs acc hacc
    · rw [if_neg h1]
      by_cases h2 : c ≠ ['.', '.'] ∨ (k = 0 ∧ acc = []) ∨ acc.getLast? = some ['.', '.']
      · rw [if_pos h2]
        refine ih hcs _ (goodStack_append_singleton acc c hacc ?_)
        push_neg at h1
        have hdd : c ≠ ['.', '.'] := by
          rcases h2 with h | h | h
          · exact h
          · exact absurd h.1 hk
          · exact absurd rfl (hacc _ (List.mem_of_mem_getLast? (by simpa using h))).2.2.1
        exact ⟨h1.1, h1.2, hdd, hcslash⟩
      · rw [if_neg h2]
        exact ih hcs _ (goodStack_dropLast acc hacc)

theorem normCompsFrom_goodStack_id (k : Nat) (comps : List (List Char))
    (hcomps : GoodStack comps) : ∀ acc,
    normCompsFrom k acc comps = acc ++ comps := by
  induction comps with
  | nil => intro acc; simp [normCompsFrom]
  | cons c cs ih =>
    intro acc
    obtain ⟨hne, hdot, hdd, hslash⟩ := hcomps c (List.mem_cons_self c cs)
    have hcs : GoodStack cs := fun x hx => hcomps x (List.mem_cons_of_mem c hx)
    unfold normCompsFrom
    rw [if_neg (by tauto), if_pos (Or.inl hdd), ih hcs]
    simp

theorem joinL_good_ne_nil (st : List (List Char)) (c : List Char) (rest : List (List Char))
    (hc : c ≠ []) (hst : st = c :: rest) : joinL st ≠ [] := by
  subst hst
  cases rest with
  | nil => simpa [joinL] using hc
  | cons r rs =>
    show c ++ '/' :: joinL (r :: rs) ≠ []
    simp [hc]

theorem splitL_joinL_good (st : List (List Char))
    (hst : ∀ c ∈ st, c ≠ [] ∧ '/' ∉ c) (hne : st ≠ []) : splitL (joinL st) = st := by
  induction st with
  | nil => exact absurd rfl hne
  | cons c rest ih =>
    obtain ⟨hcne, hcslash⟩ := hst c (List.mem_cons_self c rest)
    cases rest with
    | nil =>
      show splitL c = [c]
      exact splitL_no_slash c hcslash
    | cons r rs =>
      show splitL (c ++ '/' :: joinL (r :: rs)) = c :: r :: rs
      rw [splitL_append_slash, splitL_no_slash c hcslash,
        ih (fun x hx => hst x (List.mem_cons_of_mem c hx)) (by simp)]
      rfl

/-! ## `initial_slashes` characterizations -/

theorem initSlashes_of_not_abs (l : List Char) (h : isAbsB l = false) : initSlashes l = 0 := by
  unfold initSlashes
  rw [startsWithL_slash, h]
  rfl

theorem initSlashes_one (y : List Char) (hy : isAbsB y = false) :
    initSlashes ('/' :: y) = 1 := by
  unfold initSlashes
  have h2 : startsWithL ['/', '/'] ('/' :: y) = false := by
    show ('/' == '/' && startsWithL ['/'] y) = false
    rw [startsWithL_slash, hy]
    rfl
  rw [h2]
  simp [startsWithL]

theorem initSlashes_one' (b : Char) (z : List Char) (hb : b ≠ '/') :
    initSlashes ('/' :: b :: z) = 1 := by
  unfold initSlashes
  have h2 : startsWithL ['/', '/'] ('/' :: b :: z) = false := by
    show ('/' == '/' && startsWithL ['/'] (b :: z)) = false
    rw [startsWithL_slash]
    have : isAbsB (b :: z) = false := by
      unfold isAbsB
      simp only [List.head?]
      exact beq_eq_false_iff_ne.2 (by simp [hb])
    rw [this]
    rfl
  rw [h2]
  simp [startsWithL]

theorem initSlashes_two (y : List Char) (hy : isAbsB y = false) :
    initSlashes ('/' :: '/' :: y) = 2 := by
  unfold initSlashes
  have h3 : startsWithL ['/', '/', '/'] ('/' :: '/' :: y) = false := by
    show ('/' == '/' && ('/' == '/' && startsWithL ['/'] y)) = false
    rw [startsWithL_slash, hy]
    rfl
  rw [h3]
  simp [startsWithL]

theorem initSlashes_cons3 (a b c : Char) (z z' : List Char) :
    initSlashes (a :: b :: c :: z) = initSlashes (a :: b :: c :: z') := by
  unfold initSlashes
  have e1 : ∀ (w : List Char), startsWithL ['/'] (a :: b :: c :: w) = ('/' == a) := by
    intro w
    show ('/' == a && true) = ('/' == a)
    simp
  have e2 : ∀ (w : List Char), startsWithL ['/', '/'] (a :: b :: c :: w)
      = ('/' == a && '/' == b) := by
    intro w
    show ('/' == a && ('/' == b && true)) = ('/' == a && '/' == b)
    simp
  have e3 : ∀ (w : List Char), startsWithL ['/', '/', '/'] (a :: b :: c :: w)
      = ('/' == a && ('/' == b && '/' == c)) := by
    intro w
    show ('/' == a && ('/' == b && ('/' == c && true)))
      = ('/' == a && ('/' == b && '/' == c))
    simp
  rw [e1, e1, e2, e2, e3, e3]

theorem initSlashes_cases (l : List Char) :
    initSlashes l = 0 ∨ initSlashes l = 1 ∨ initSlashes l = 2 := by
  unfold initSlashes
  by_cases h1 : startsWithL ['/'] l = true
  · rw [if_pos h1]
    by_cases h2 : startsWithL ['/', '/'] l = true ∧ startsWithL ['/', '/', '/'] l = false
    · rw [if_pos h2]
      tauto
    · rw [if_neg h2]
      tauto
  · rw [if_neg h1]
    tauto

theorem isAbsB_cons_ne (b : Char) (z : List Char) (hb : b ≠ '/') :
    isAbsB (b :: z) = false := by
  unfold isAbsB
  simp only [List.head?]
  exact beq_eq_false_iff_ne.2 (by simp [hb])

theorem initSlashes_join2 (x y : List Char) (hx : isAbsB x = true) (hy : isAbsB y = false) :
    initSlashes (join2L x y) = initSlashes x := by
  cases x with
  | nil => simp [isAbsB] at hx
  | cons a xs =>
    have ha : a = '/' := by
      unfold isAbsB at hx
      simp only [List.head?] at hx
      simpa using hx
    subst ha
    unfold join2L
    rw [if_neg ?hyb]
    case hyb =>
      intro hh
      unfold isAbsB at hy
      rw [hh] at hy
      simp at hy
    by_cases hend : ('/' :: xs : List Char) = [] ∨ ('/' :: xs).getLast? = some '/'
    · rw [if_pos hend]
      cases xs with
      | nil =>
        show initSlashes ('/' :: ([] : List Char) ++ y) = initSlashes ['/']
        rw [show ('/' :: ([] : List Char) ++ y) = '/' :: y by simp, initSlashes_one y hy]
        rfl
      | cons b bs =>
        cases bs with
        | nil =>
          have hb : b = '/' := by
            rcases hend with h | h
            · simp at h
            · simpa using h
          subst hb
          show initSlashes (['/', '/'] ++ y) = initSlashes ['/', '/']
          rw [show (['/', '/'] ++ y : List Char) = '/' :: '/' :: y by simp,
            initSlashes_two y hy]
          rfl
        | cons cc cs =>
          show initSlashes ('/' :: b :: cc :: (cs ++ y)) = initSlashes ('/' :: b :: cc :: cs)
          exact initSlashes_cons3 '/' b cc (cs ++ y) cs
    · rw [if_neg hend]
      cases xs with
      | nil => exact absurd (Or.inr rfl) hend
      | cons b bs =>
        cases bs with
        | nil =>
          have hb : b ≠ '/' := by
            intro hh
            exact hend (Or.inr (by simpa using hh))
          show initSlashes ('/' :: b :: '/' :: y) = initSlashes ['/', b]
          rw [initSlashes_one' b ('/' :: y) hb, initSlashes_one' b [] hb]
        | cons cc cs =>
          show initSlashes ('/' :: b :: cc :: (cs ++ '/' :: y))
            = initSlashes ('/' :: b :: cc :: cs)
          exact initSlashes_cons3 '/' b cc (cs ++ '/' :: y) cs

theorem replicate_append_ne_nil (k : Nat) (hk : k ≠ 0) (t : List Char) :
    List.replicate k '/' ++ t ≠ [] := by
  cases k with
  | zero => exact absurd rfl hk
  | succ n => simp

theorem joinL_cons_head (c0 : Char) (c' : List Char) (rest : List (List Char)) :
    ∃ t, joinL ((c0 :: c') :: rest) = c0 :: t := by
  cases rest with
  | nil => exact ⟨c', rfl⟩
  | cons r rs => exact ⟨c' ++ '/' :: joinL (r :: rs), rfl⟩

theorem initSlashes_normpath (x : List Char) (hx : isAbsB x = true) :
    initSlashes (normpathL x) = initSlashes x := by
  have hne : x ≠ [] := by
    cases x
    · simp [isAbsB] at hx
    · simp
  have hk := initSlashes_pos_of_abs x hx
  have hgood : GoodStack (normCompsFrom (initSlashes x) [] (splitL x)) :=
    normCompsFrom_goodStack _ hk _ (mem_splitL_no_slash x) [] (by intro c hc; simp at hc)
  have hk12 : initSlashes x = 1 ∨ initSlashes x = 2 := by
    rcases initSlashes_cases x with h | h | h
    · exact absurd h hk
    · exact Or.inl h
    · exact Or.inr h
  unfold normpathL
  rw [if_neg hne, if_neg (replicate_append_ne_nil _ hk _)]
  cases hst : normCompsFrom (initSlashes x) [] (splitL x) with
  | nil =>
    rcases hk12 with h | h <;> rw [h] <;> rfl
  | cons c rest =>
    obtain ⟨hcne, hcdot, hcdd, hcslash⟩ := hgood c (by rw [hst]; exact List.mem_cons_self c rest)
    cases hc0 : c with
    | nil => exact absurd hc0 hcne
    | cons c0 c' =>
      have hc0ne : c0 ≠ '/' := by
        intro hh
        rw [hc0] at hcslash
        exact hcslash (by rw [hh]; exact List.mem_cons_self _ _)
      obtain ⟨t, ht⟩ := joinL_cons_head c0 c' rest
      rw [ht]
      rcases hk12 with h | h <;> rw [h]
      · show initSlashes ('/' :: c0 :: t) = 1
        exact initSlashes_one' c0 t hc0ne
      · show initSlashes ('/' :: '/' :: c0 :: t) = 2
        exact initSlashes_two (c0 :: t) (isAbsB_cons_ne c0 t hc0ne)

theorem normCompsFrom_skip_nil (k : Nat) (acc : List (List Char)) (rest : List (List Char)) :
    normCompsFrom k acc ([] :: rest) = normCompsFrom k acc rest := by
  rw [normCompsFrom_cons, if_pos (Or.inl rfl)]

/-- Re-splitting a normalized absolute path recovers its component stack. -/
theorem stack_normpath (x : List Char) (hx : isAbsB x = true) (k' : Nat) (hk' : k' ≠ 0) :
    normCompsFrom k' [] (splitL (normpathL x))
      = normCompsFrom (initSlashes x) [] (splitL x) := by
  have hne : x ≠ [] := by
    cases x
    · simp [isAbsB] at hx
    · simp
  have hk := initSlashes_pos_of_abs x hx
  have hgood : GoodStack (normCompsFrom (initSlashes x) [] (splitL x)) :=
    normCompsFrom_goodStack _ hk _ (mem_splitL_no_slash x) [] (by intro c hc; simp at hc)
  have hk12 : initSlashes x = 1 ∨ initSlashes x = 2 := by
    rcases initSlashes_cases x with h | h | h
    · exact absurd h hk
    · exact Or.inl h
    · exact Or.inr h
  unfold normpathL
  rw [if_neg hne, if_neg (replicate_append_ne_nil _ hk _)]
  cases hst : normCompsFrom (initSlashes x) [] (splitL x) with
  | nil =>
    rcases hk12 with h | h <;> rw [h] <;> rfl
  | cons c rest =>
    have hgood' : GoodStack (c :: rest) := by
      rw [← hst]
      exact hgood
    have hsj : splitL (joinL (c :: rest)) = c :: rest :=
      splitL_joinL_good (c :: rest)
        (fun y hy => ⟨(hgood' y hy).1, (hgood' y hy).2.2.2⟩) (by simp)
    have hid : normCompsFrom k' [] (c :: rest) = c :: rest :=
      normCompsFrom_goodStack_id k' (c :: rest) hgood' []
    rcases hk12 with h | h <;> rw [h]
    · show normCompsFrom k' [] (splitL ('/' :: joinL (c :: rest))) = c :: rest
      rw [splitL_cons_slash, normCompsFrom_skip_nil, hsj, hid]
    · show normCompsFrom k' [] (splitL ('/' :: '/' :: joinL (c :: rest))) = c :: rest
      rw [splitL_cons_slash, splitL_cons_slash, normCompsFrom_skip_nil,
        normCompsFrom_skip_nil, hsj, hid]

/-- Splitting a `join` decomposes into processing the first path's components
followed by the second's. -/
theorem stack_join2 (k : Nat) (x y : List Char) (hy : isAbsB y = false) :
    normCompsFrom k [] (splitL (join2L x y))
      = normCompsFrom k (normCompsFrom k [] (splitL x)) (splitL y) := by
  unfold join2L
  rw [if_neg ?hyb]
  case hyb =>
    intro hh
    unfold isAbsB at hy
    rw [hh] at hy
    simp at hy
  by_cases hend : x = [] ∨ x.getLast? = some '/'
  · rw [if_pos hend]
    rcases hend with hnil | hlast
    · subst hnil
      show normCompsFrom k [] (splitL y)
        = normCompsFrom k (normCompsFrom k [] [[]]) (splitL y)
      rw [show normCompsFrom k [] [[]] = [] from rfl]
    · have hxne : x ≠ [] := by
        intro hh
        rw [hh] at hlast
        simp at hlast
      have hdec : x = x.dropLast ++ ['/'] := by
        have h1 := List.dropLast_append_getLast hxne
        have h2 : x.getLast hxne = '/' := by
          rw [List.getLast?_eq_getLast x hxne] at hlast
          simpa using hlast
        rw [h2] at h1
        exact h1.symm
      conv_lhs => rw [hdec]
      conv_rhs => rw [hdec]
      rw [show x.dropLast ++ ['/'] ++ y = x.dropLast ++ '/' :: y by simp,
        splitL_append_slash,
        show x.dropLast ++ ['/'] = x.dropLast ++ '/' :: [] by simp,
        splitL_append_slash, normCompsFrom_append, normCompsFrom_append,
        show splitL [] = [[]] from rfl,
        show ∀ acc, normCompsFrom k acc [[]] = acc from fun acc => rfl]
  · rw [if_neg hend]
    rw [splitL_append_slash, normCompsFrom_append]

/-- The key composition fact behind the snapshot round-trip: normalizing an
absolute path before joining a further component does not change the final
normalized result. -/
theorem normpath_join2_normpath (x y : List Char) (hx : isAbsB x = true) :
    normpathL (join2L (normpathL x) y) = normpathL (join2L x y) := by
  by_cases hy : isAbsB y = true
  · have hyh : y.head? = some '/' := by
      unfold isAbsB at hy
      simpa using hy
    unfold join2L
    rw [if_pos hyh, if_pos hyh]
  · have hyf : isAbsB y = false := by simpa using hy
    have hnx : isAbsB (normpathL x) = true := normpathL_isAbs x hx
    have hk := initSlashes_pos_of_abs x hx
    have hkA : initSlashes (join2L (normpathL x) y) = initSlashes x := by
      rw [initSlashes_join2 _ _ hnx hyf, initSlashes_normpath x hx]
    have hkB : initSlashes (join2L x y) = initSlashes x := initSlashes_join2 _ _ hx hyf
    have hAabs : isAbsB (join2L (normpathL x) y) = true := join2L_isAbs _ _ hnx
    have hBabs : isAbsB (join2L x y) = true := join2L_isAbs _ _ hx
    have hAne : join2L (normpathL x) y ≠ [] := by
      intro hh
      rw [hh] at hAabs
      simp [isAbsB] at hAabs
    have hBne : join2L x y ≠ [] := by
      intro hh
      rw [hh] at hBabs
      simp [isAbsB] at hBabs
    have hstacks : normCompsFrom (initSlashes x) [] (splitL (join2L (normpathL x) y))
        = normCompsFrom (initSlashes x) [] (splitL (join2L x y)) := by
      rw [stack_join2 _ _ _ hyf, stack_join2 _ _ _ hyf,
        stack_normpath x hx (initSlashes x) hk]
    have hEq : ∀ (p : List Char), p ≠ [] →
        (List.replicate (initSlashes p) '/' ++
          joinL (normCompsFrom (initSlashes p) [] (splitL p)) ≠ []) →
        normpathL p = List.replicate (initSlashes p) '/' ++
          joinL (normCompsFrom (initSlashes p) [] (splitL p)) := by
      intro p hp hres
      unfold normpathL
      rw [if_neg hp]
      dsimp only
      rw [if_neg hres]
    rw [hEq _ hAne (by rw [hkA]; exact replicate_append_ne_nil _ hk _),
      hEq _ hBne (by rw [hkB]; exact replicate_append_ne_nil _ hk _),
      hkA, hkB, hstacks]

theorem abspath_join2_abspath (cwd x y : String) (hx : isAbsB x.data = true) :
    abspathS cwd (join2S (abspathS cwd x) y) = abspathS cwd (join2S x y) := by
  have h1 : abspathS cwd x = normpathS x := abspathS_of_abs cwd x hx
  have hnx : isAbsB (normpathS x).data = true := normpathL_isAbs _ hx
  have h2 : isAbsB (join2S (normpathS x) y).data = true := join2L_isAbs _ _ hnx
  have h3 : isAbsB (join2S x y).data = true := join2L_isAbs _ _ hx
  rw [h1, abspathS_of_abs _ _ h2, abspathS_of_abs _ _ h3]
  show (⟨normpathL (join2L (normpathL x.data) y.data)⟩ : String)
    = ⟨normpathL (join2L x.data y.data)⟩
  exact congrArg (fun l => (⟨l⟩ : String)) (normpath_join2_normpath x.data y.data hx)

/-! ## Claim C8: snapshot read round-trip -/

theorem getFileContent_inv (fs : FSState) (cfg : Config) (p : String) (k : SizeLimitKind)
    (sid : Option String) (bs : List Nat)
    (h : getFileContent fs cfg p k sid = .ok bs) :
    ∃ fp, resolveFullPath fs cfg p sid = .ok fp ∧ fs.isDir fp = false ∧
      bs = fs.contentBytes fp := by
  unfold getFileContent at h
  cases hres : resolveFullPath fs cfg p sid with
  | error e =>
    rw [hres] at h
    simp [Bind.bind, Except.bind] at h
  | ok fp =>
    rw [hres] at h
    simp only [Bind.bind, Except.bind] at h
    cases hchk : checkFileSizeIsNotTooLarge fs cfg fp k with
    | error e =>
      rw [hchk] at h
      simp at h
    | ok u =>
      rw [hchk] at h
      by_cases hd : fs.isDir fp
      · rw [if_pos hd] at h
        simp at h
      · rw [if_neg hd] at h
        simp only [Pure.pure, Except.pure, Except.ok.injEq] at h
        exact ⟨fp, rfl, by simpa using hd, h.symm⟩

theorem resolveFullPath_snap_inv (fs : FSState) (cfg : Config) (p sid fp : String)
    (hsid : sid ≠ "")
    (h : resolveFullPath fs cfg p (some sid) = .ok fp) :
    buildSnapshotPath fs cfg sid (normRel p) = .ok fp := by
  unfold resolveFullPath at h
  dsimp only at h
  have hs : sidTruthy (some sid) = true := by
    unfold sidTruthy
    simpa using hsid
  rw [if_pos hs] at h
  simp only [Bind.bind, Except.bind, Option.getD] at h
  cases hens : ensurePathAllowed fs cfg (normRel p) with
  | error e =>
    rw [hens] at h
    simp at h
  | ok u =>
    rw [hens] at h
    cases hbsp : buildSnapshotPath fs cfg sid (normRel p) with
    | error e =>
      rw [hbsp] at h
      simp at h
    | ok r =>
      rw [hbsp] at h
      dsimp only at h
      by_cases hex : fs.pathExists r
      · rw [if_neg (by simp [hex])] at h
        simp only [Pure.pure, Except.pure, Except.ok.injEq] at h
        rw [h]
      · rw [if_pos (by simp [hex])] at h
        simp at h

theorem buildSnapshotPath_inv (fs : FSState) (cfg : Config) (sid rel fp : String)
    (h : buildSnapshotPath fs cfg sid rel = .ok fp) :
    fs.isDir (snapBaseDef fs cfg sid) = true ∧
    (((rel = "" ∨ rel = "/" ∨ rel = "\\") ∧ fp = snapBaseDef fs cfg sid) ∨
      (¬(rel = "" ∨ rel = "/" ∨ rel = "\\") ∧
        fp = abspathS fs.cwd (join2S (snapBaseDef fs cfg sid) rel))) := by
  unfold buildSnapshotPath getSnapshotRoot at h
  by_cases hname : cfg.snapshot_folder_name = ""
  · rw [if_pos hname] at h
    simp [Bind.bind, Except.bind] at h
  · rw [if_neg hname] at h
    by_cases hroot : fs.isDir (snapRootDef fs cfg)
    · rw [if_pos hroot] at h
      simp only [Bind.bind, Except.bind] at h
      rw [show abspathS fs.cwd (join2S (snapRootDef fs cfg) sid)
        = snapBaseDef fs cfg sid from rfl] at h
      by_cases hbase : fs.isDir (snapBaseDef fs cfg sid)
      · rw [if_neg (by simp [hbase])] at h
        refine ⟨hbase, ?_⟩
        by_cases hspec : rel = "" ∨ rel = "/" ∨ rel = "\\"
        · rw [if_pos hspec] at h
          simp only [Except.ok.injEq] at h
          exact Or.inl ⟨hspec, h.symm⟩
        · rw [if_neg hspec] at h
          cases hc : commonpathS (abspathS fs.cwd (join2S (snapBaseDef fs cfg sid) rel))
              (snapBaseDef fs cfg sid) with
          | none =>
            rw [hc] at h
            simp at h
          | some c =>
            rw [hc] at h
            dsimp only at h
            by_cases hne2 : c ≠ snapBaseDef fs cfg sid
            · rw [if_pos hne2] at h
              simp at h
            · rw [if_neg hne2] at h
              simp only [Except.ok.injEq] at h
              exact Or.inr ⟨hspec, h.symm⟩
      · rw [if_pos (by simp [hbase])] at h
        simp at h
    · rw [if_neg hroot] at h
      simp [Bind.bind, Except.bind] at h

/-- C8: whenever a snapshot read succeeds, the returned bytes are exactly the
bytes of the file physically located at `<root>/<snapshotFolder>/<sid>/<p>`
(i.e. at the canonical absolute path of that very concatenation). -/
theorem claim_C8 (fs : FSState) (cfg : Config) (p sid : String) (k : SizeLimitKind)
    (bs : List Nat)
    (habs : IsAbsS cfg.file_system_path) (hsid : sid ≠ "")
    (h : getFileContent fs cfg p k (some sid) = .ok bs) :
    bs = fs.contentBytes (abspathS fs.cwd
      (join2S (join2S (join2S cfg.file_system_path cfg.snapshot_folder_name) sid) p)) := by
  obtain ⟨fp, hres, hnd, hbs⟩ := getFileContent_inv fs cfg p k (some sid) bs h
  have hbsp := resolveFullPath_snap_inv fs cfg p sid fp hsid hres
  obtain ⟨hbase, hdisj⟩ := buildSnapshotPath_inv fs cfg sid (normRel p) fp hbsp
  rcases hdisj with ⟨hspec, hfp⟩ | ⟨hspec, hfp⟩
  · rw [hfp, hbase] at hnd
    exact absurd hnd (by simp)
  · have hps : ¬(p = "" ∨ p = "/" ∨ p = "\\") := by
      intro hp
      apply hspec
      unfold normRel
      rw [if_pos hp]
      exact Or.inl rfl
    have hnp : normRel p = p := by
      unfold normRel
      rw [if_neg hps]
    rw [hnp] at hfp
    have habsB : isAbsB cfg.file_system_path.data = true := isAbsB_of_isAbsS _ habs
    have hR : isAbsB (join2S cfg.file_system_path cfg.snapshot_folder_name).data = true :=
      join2L_isAbs _ _ habsB
    have hRS : isAbsB (join2S (join2S cfg.file_system_path cfg.snapshot_folder_name) sid).data
        = true := join2L_isAbs _ _ hR
    have e1 : snapBaseDef fs cfg sid = abspathS fs.cwd
        (join2S (join2S cfg.file_system_path cfg.snapshot_folder_name) sid) := by
      unfold snapBaseDef snapRootDef
      exact abspath_join2_abspath fs.cwd _ sid hR
    have e2 : fp = abspathS fs.cwd (join2S (join2S (join2S cfg.file_system_path
        cfg.snapshot_folder_name) sid) p) := by
      rw [hfp, e1, abspath_join2_abspath fs.cwd _ p hRS]
    rw [hbs, e2]

/-- Witness for C8: reading `f.txt` from snapshot `s1` in `exFsA` returns the
bytes stored at the canonical form of `/r/.snapshot/s1/f.txt`. -/
theorem claim_C8_witness :
    ([42] : List Nat) = exFsA.contentBytes (abspathS exFsA.cwd
      (join2S (join2S (join2S "/r" ".snapshot") "s1") "f.txt")) :=
  claim_C8 exFsA exCfgA "f.txt" "s1" SizeLimitKind.NONE [42] rfl (by decide) rfl

/-! ## Claim C9: trailing-slash normalization of `folder_contents` -/

theorem data_append_slash (p : String) : (p ++ "/").data = p.data ++ ['/'] := by
  rw [String.data_append]

theorem endsWithSlashS_append_slash (p : String) : endsWithSlashS (p ++ "/") = true := by
  unfold endsWithSlashS
  rw [data_append_slash, List.getLast?_concat]
  rfl

theorem notEndsSlash_getLast (p : String) (h : endsWithSlashS p = false) :
    p.data.getLast? ≠ some '/' := by
  unfold endsWithSlashS at h
  intro hh
  rw [hh] at h
  simp at h

theorem append_slash_ne_empty (p : String) : p ++ "/" ≠ "" := by
  intro h
  have hd := congrArg String.data h
  rw [data_append_slash] at hd
  simp at hd

theorem append_slash_ne_root (p : String) (hp : p ≠ "") : p ++ "/" ≠ "/" := by
  intro h
  have hd := congrArg String.data h
  rw [data_append_slash, show ("/".data) = ([] : List Char) ++ ['/'] from rfl] at hd
  exact hp (String.ext (List.append_cancel_right hd))

theorem append_slash_ne_dot (p : String) : p ++ "/" ≠ "." := by
  intro h
  have hd := congrArg String.data h
  rw [data_append_slash, show (".".data) = ['.'] from rfl] at hd
  have h2 := congrArg List.getLast? hd
  rw [List.getLast?_concat, show (['.'] : List Char).getLast? = some '.' from rfl] at h2
  exact absurd (Option.some.inj h2) (by decide)

theorem append_slash_ne_backslash (p : String) : p ++ "/" ≠ "\\" := by
  intro h
  have hd := congrArg String.data h
  rw [data_append_slash, show ("\\".data) = ['\\'] from rfl] at hd
  have h2 := congrArg List.getLast? hd
  rw [List.getLast?_concat, show (['\\'] : List Char).getLast? = some '\\' from rfl] at h2
  exact absurd (Option.some.inj h2) (by decide)

theorem ne_root_of_not_ends (p : String) (hlast : endsWithSlashS p = false) : p ≠ "/" := by
  intro hh
  rw [hh] at hlast
  exact absurd hlast (by decide)

/-- Appending a trailing separator to a path that does not already end in one
leaves `initial_slashes` unchanged. -/
theorem initSlashes_append_slash (l : List Char) (hne : l ≠ [])
    (hlast : l.getLast? ≠ some '/') :
    initSlashes (l ++ ['/']) = initSlashes l := by
  cases l with
  | nil => exact absurd rfl hne
  | cons a t =>
    by_cases ha : a = '/'
    · subst ha
      cases t with
      | nil => exact absurd (by simp) hlast
      | cons b u =>
        cases u with
        | nil =>
          have hb : b ≠ '/' := by
            intro hh
            exact hlast (by subst hh; simp)
          show initSlashes ('/' :: b :: ['/']) = initSlashes ('/' :: b :: [])
          rw [initSlashes_one' b ['/'] hb, initSlashes_one' b [] hb]
        | cons c v =>
          show initSlashes ('/' :: b :: c :: (v ++ ['/'])) = initSlashes ('/' :: b :: c :: v)
          exact initSlashes_cons3 '/' b c (v ++ ['/']) v
    · have h1 : initSlashes (a :: (t ++ ['/'])) = 0 :=
        initSlashes_of_not_abs _ (isAbsB_cons_ne a _ ha)
      have h2 : initSlashes (a :: t) = 0 :=
        initSlashes_of_not_abs _ (isAbsB_cons_ne a t ha)
      show initSlashes (a :: (t ++ ['/'])) = initSlashes (a :: t)
      rw [h1, h2]

/-- `normpath(p + '/') == normpath(p)` for a nonempty `p` without a trailing
separator: the extra slash only adds an empty component, which the
normalization loop skips. -/
theorem normpathL_append_slash (l : List Char) (hne : l ≠ [])
    (hlast : l.getLast? ≠ some '/') :
    normpathL (l ++ ['/']) = normpathL l := by
  have hne2 : l ++ ['/'] ≠ [] := by simp
  have hsplit : splitL (l ++ ['/']) = splitL l ++ [[]] := by
    rw [show l ++ ['/'] = l ++ '/' :: [] from rfl, splitL_append_slash]
    rfl
  unfold normpathL
  rw [if_neg hne2, if_neg hne]
  dsimp only
  rw [initSlashes_append_slash l hne hlast, hsplit, normCompsFrom_append,
    show ∀ acc, normCompsFrom (initSlashes l) acc [[]] = acc from fun acc => rfl]

theorem join2L_append_slash (x p : List Char) (hp : p ≠ []) :
    join2L x (p ++ ['/']) = join2L x p ++ ['/'] := by
  have hh : (p ++ ['/']).head? = p.head? := by
    cases p with
    | nil => exact absurd rfl hp
    | cons a t => rfl
  unfold join2L
  rw [hh]
  by_cases habs : p.head? = some '/'
  · rw [if_pos habs, if_pos habs]
  · rw [if_neg habs, if_neg habs]
    by_cases hx : x = [] ∨ x.getLast? = some '/'
    · rw [if_pos hx, if_pos hx, List.append_assoc]
    · rw [if_neg hx, if_neg hx]
      simp

theorem join2L_ne_nil' (x p : List Char) (hp : p ≠ []) : join2L x p ≠ [] := by
  unfold join2L
  by_cases h1 : p.head? = some '/'
  · rw [if_pos h1]; exact hp
  · rw [if_neg h1]
    by_cases h2 : x = [] ∨ x.getLast? = some '/'
    · rw [if_pos h2]; simp [hp]
    · rw [if_neg h2]; simp

theorem join2L_getLast (x p : List Char) (hp : p ≠ []) :
    (join2L x p).getLast? = p.getLast? := by
  unfold join2L
  by_cases h1 : p.head? = some '/'
  · rw [if_pos h1]
  · rw [if_neg h1]
    by_cases h2 : x = [] ∨ x.getLast? = some '/'
    · rw [if_pos h2, List.getLast?_append_of_ne_nil _ hp]
    · rw [if_neg h2, List.getLast?_append_of_ne_nil _ (by simp : ('/' :: p : List Char) ≠ []),
        show '/' :: p = ['/'] ++ p from rfl, List.getLast?_append_of_ne_nil _ hp]

theorem abspathS_append_slash (cwd : String) (q : List Char) (hq : q ≠ [])
    (hlast : q.getLast? ≠ some '/') :
    abspathS cwd ⟨q ++ ['/']⟩ = abspathS cwd ⟨q⟩ := by
  have hhead : (q ++ ['/']).head? = q.head? := by
    cases q with
    | nil => exact absurd rfl hq
    | cons a t => rfl
  unfold abspathS
  by_cases h : IsAbsS ⟨q⟩
  · rw [if_pos (show IsAbsS ⟨q ++ ['/']⟩ by
        unfold IsAbsS at h ⊢
        rw [show (String.mk (q ++ ['/'])).data = q ++ ['/'] from rfl, hhead]
        exact h),
      if_pos h]
    show (⟨normpathL (q ++ ['/'])⟩ : String) = ⟨normpathL q⟩
    rw [normpathL_append_slash q hq hlast]
  · rw [if_neg (show ¬ IsAbsS ⟨q ++ ['/']⟩ by
        intro hh
        apply h
        unfold IsAbsS at hh ⊢
        rw [show (String.mk (q ++ ['/'])).data = q ++ ['/'] from rfl, hhead] at hh
        exact hh),
      if_neg h]
    show (⟨normpathL (join2L cwd.data (q ++ ['/']))⟩ : String)
      = ⟨normpathL (join2L cwd.data q)⟩
    rw [join2L_append_slash _ _ hq,
      normpathL_append_slash _ (join2L_ne_nil' _ _ hq)
        (by rw [join2L_getLast _ _ hq]; exact hlast)]

/-- The absolute form of `join(x, p + '/')` coincides with that of
`join(x, p)` when `p` is nonempty without a trailing slash. -/
theorem abspath_join2_append_slash (cwd x p : String) (hp : p ≠ "")
    (hlast : endsWithSlashS p = false) :
    abspathS cwd (join2S x (p ++ "/")) = abspathS cwd (join2S x p) := by
  have hpd : p.data ≠ [] := fun h => hp (String.ext h)
  have hpl : p.data.getLast? ≠ some '/' := notEndsSlash_getLast p hlast
  have e1 : join2S x (p ++ "/") = ⟨join2L x.data p.data ++ ['/']⟩ := by
    show (⟨join2L x.data (p ++ "/").data⟩ : String) = _
    rw [data_append_slash, join2L_append_slash _ _ hpd]
  rw [e1, show join2S x p = ⟨join2L x.data p.data⟩ from rfl]
  exact abspathS_append_slash cwd _ (join2L_ne_nil' _ _ hpd)
    (by rw [join2L_getLast _ _ hpd]; exact hpl)

/-- Joining `"./"` onto a canonical absolute path and renormalizing gives the
path back. -/
theorem normpath_join2_dotslash (R : List Char) (habs : isAbsB R = true)
    (hnorm : normpathL R = R) :
    normpathL (join2L R ['.', '/']) = R := by
  have hRne : R ≠ [] := by
    intro h
    rw [h] at habs
    simp [isAbsB] at habs
  have hk := initSlashes_pos_of_abs R habs
  have hyrel : isAbsB (['.', '/'] : List Char) = false := by decide
  have hJne : join2L R ['.', '/'] ≠ [] := join2L_ne_nil' _ _ (by simp)
  have hkj : initSlashes (join2L R ['.', '/']) = initSlashes R :=
    initSlashes_join2 _ _ habs hyrel
  have hstack : normCompsFrom (initSlashes R) [] (splitL (join2L R ['.', '/']))
      = normCompsFrom (initSlashes R) [] (splitL R) := by
    rw [stack_join2 _ _ _ hyrel,
      show splitL (['.', '/'] : List Char) = [['.'], []] from rfl,
      show ∀ acc, normCompsFrom (initSlashes R) acc [['.'], []] = acc from fun acc => rfl]
  have hEq : ∀ (p : List Char), p ≠ [] →
      (List.replicate (initSlashes p) '/' ++
        joinL (normCompsFrom (initSlashes p) [] (splitL p)) ≠ []) →
      normpathL p = List.replicate (initSlashes p) '/' ++
        joinL (normCompsFrom (initSlashes p) [] (splitL p)) := by
    intro p hp hres
    unfold normpathL
    rw [if_neg hp]
    dsimp only
    rw [if_neg hres]
  rw [hEq _ hJne (by rw [hkj]; exact replicate_append_ne_nil _ hk _), hkj, hstack,
    ← hEq _ hRne (replicate_append_ne_nil _ hk _), hnorm]

/-- A canonical absolute path with a single leading slash is the slash
followed by the join of its (good) component stack. -/
theorem canonical_shape (R : List Char) (habs : isAbsB R = true)
    (hk1 : initSlashes R = 1) (hnorm : normpathL R = R) :
    R = '/' :: joinL (normCompsFrom 1 [] (splitL R)) ∧
      GoodStack (normCompsFrom 1 [] (splitL R)) := by
  have hRne : R ≠ [] := by
    intro h
    rw [h] at habs
    simp [isAbsB] at habs
  have hgood : GoodStack (normCompsFrom 1 [] (splitL R)) :=
    normCompsFrom_goodStack 1 (by simp) _ (mem_splitL_no_slash R) []
      (by intro c hc; simp at hc)
  refine ⟨?_, hgood⟩
  conv_lhs => rw [← hnorm]
  unfold normpathL
  rw [if_neg hRne]
  dsimp only
  rw [hk1, if_neg (replicate_append_ne_nil 1 (by simp) _)]
  rfl

/-- `commonpath([r, r]) == r` for a canonical absolute `r` with a single
leading slash. -/
theorem commonpath2L_self_canonical (R : List Char) (habs : isAbsB R = true)
    (hk1 : initSlashes R = 1) (hnorm : normpathL R = R) :
    commonpath2L R R = some R := by
  obtain ⟨hshape, hgood⟩ := canonical_shape R habs hk1 hnorm
  have hgc : GoodComps (normCompsFrom 1 [] (splitL R)) :=
    fun c hc => ⟨(hgood c hc).1, (hgood c hc).2.1, (hgood c hc).2.2.2⟩
  have hfilt : filteredCompsL R = normCompsFrom 1 [] (splitL R) := by
    conv_lhs => rw [hshape]
    exact filteredCompsL_slash_join _ hgc
  unfold commonpath2L
  rw [if_neg (by rw [habs]; simp)]
  dsimp only
  rw [hfilt, ite_self, commonPrefixL_self, habs, if_pos rfl]
  exact congrArg some hshape.symm

/-- `_build_path("./")` returns the configured root, like `_build_path(".")`,
for a canonical absolute root with a single leading slash. -/
theorem buildPath_dotslash (fs : FSState) (cfg : Config)
    (habs : IsAbsS cfg.file_system_path)
    (hcanon : normpathS cfg.file_system_path = cfg.file_system_path)
    (hk1 : initSlashes cfg.file_system_path.data = 1) :
    buildPath fs cfg "./" = .ok cfg.file_system_path := by
  have habsB : isAbsB cfg.file_system_path.data = true := isAbsB_of_isAbsS _ habs
  have hnormL : normpathL cfg.file_system_path.data = cfg.file_system_path.data :=
    congrArg String.data hcanon
  have hjabs : isAbsB (join2S cfg.file_system_path "./").data = true := by
    show isAbsB (join2L cfg.file_system_path.data "./".data) = true
    exact join2L_isAbs _ _ habsB
  have e1 : abspathS fs.cwd (join2S cfg.file_system_path "./") = cfg.file_system_path := by
    rw [abspathS_of_abs _ _ hjabs]
    show (⟨normpathL (join2L cfg.file_system_path.data ['.', '/'])⟩ : String)
      = cfg.file_system_path
    rw [normpath_join2_dotslash _ habsB hnormL]
  have e2 : abspathS fs.cwd cfg.file_system_path = cfg.file_system_path := by
    rw [abspathS_of_abs _ _ habsB, hcanon]
  have e3 : commonpathS cfg.file_system_path cfg.file_system_path
      = some cfg.file_system_path := by
    unfold commonpathS
    rw [commonpath2L_self_canonical _ habsB hk1 hnormL]
    rfl
  unfold buildPath
  rw [if_neg (by decide)]
  dsimp only
  rw [e1, e2, e3]
  dsimp only
  rw [if_neg (by simp)]

/-- `_build_path` does not distinguish `p` from `p + '/'` (for a canonical
absolute root with a single leading slash). -/
theorem buildPath_append_slash (fs : FSState) (cfg : Config)
    (habs : IsAbsS cfg.file_system_path)
    (hcanon : normpathS cfg.file_system_path = cfg.file_system_path)
    (hk1 : initSlashes cfg.file_system_path.data = 1)
    (p : String) (hp : p ≠ "") (hlast : endsWithSlashS p = false) :
    buildPath fs cfg (p ++ "/") = buildPath fs cfg p := by
  by_cases hdot : p = "."
  · subst hdot
    show buildPath fs cfg "./" = buildPath fs cfg "."
    rw [buildPath_dotslash fs cfg habs hcanon hk1]
    unfold buildPath
    rw [if_pos (Or.inr (Or.inr rfl))]
  · have hslash : p ≠ "/" := ne_root_of_not_ends p hlast
    have h1 : ¬((p ++ "/") = "" ∨ (p ++ "/") = "/" ∨ (p ++ "/") = ".") := by
      rintro (h | h | h)
      · exact append_slash_ne_empty p h
      · exact append_slash_ne_root p hp h
      · exact append_slash_ne_dot p h
    have h2 : ¬(p = "" ∨ p = "/" ∨ p = ".") := by
      rintro (h | h | h)
      · exact hp h
      · exact hslash h
      · exact hdot h
    unfold buildPath
    rw [if_neg h1, if_neg h2]
    dsimp only
    rw [abspath_join2_append_slash fs.cwd cfg.file_system_path p hp hlast]

theorem ensurePathAllowed_append_slash (fs : FSState) (cfg : Config)
    (habs : IsAbsS cfg.file_system_path)
    (hcanon : normpathS cfg.file_system_path = cfg.file_system_path)
    (hk1 : initSlashes cfg.file_system_path.data = 1)
    (p : String) (hp : p ≠ "") (hlast : endsWithSlashS p = false) :
    ensurePathAllowed fs cfg (p ++ "/") = ensurePathAllowed fs cfg p := by
  unfold ensurePathAllowed
  rw [buildPath_append_slash fs cfg habs hcanon hk1 p hp hlast]

theorem buildSnapshotPath_append_slash (fs : FSState) (cfg : Config) (sid : String)
    (p : String) (hp : p ≠ "") (hlast : endsWithSlashS p = false) (hbs : p ≠ "\\") :
    buildSnapshotPath fs cfg sid (p ++ "/") = buildSnapshotPath fs cfg sid p := by
  have hslash : p ≠ "/" := ne_root_of_not_ends p hlast
  have h1 : ¬((p ++ "/") = "" ∨ (p ++ "/") = "/" ∨ (p ++ "/") = "\\") := by
    rintro (h | h | h)
    · exact append_slash_ne_empty p h
    · exact append_slash_ne_root p hp h
    · exact append_slash_ne_backslash p h
  have h2 : ¬(p = "" ∨ p = "/" ∨ p = "\\") := by
    rintro (h | h | h)
    · exact hp h
    · exact hslash h
    · exact hbs h
  unfold buildSnapshotPath
  cases hroot : getSnapshotRoot fs cfg with
  | error e => rfl
  | ok r =>
    simp only [Bind.bind, Except.bind]
    by_cases hbase : fs.isDir (abspathS fs.cwd (join2S r sid)) = true
    · have hnd : ¬¬fs.isDir (abspathS fs.cwd (join2S r sid)) = true := by simp [hbase]
      rw [if_neg hnd, if_neg hnd, if_neg h1, if_neg h2]
      rw [abspath_join2_append_slash fs.cwd _ p hp hlast]
    · have hnd : ¬fs.isDir (abspathS fs.cwd (join2S r sid)) = true := hbase
      rw [if_pos hnd, if_pos hnd]

theorem resolveFullPath_append_slash (fs : FSState) (cfg : Config)
    (habs : IsAbsS cfg.file_system_path)
    (hcanon : normpathS cfg.file_system_path = cfg.file_system_path)
    (hk1 : initSlashes cfg.file_system_path.data = 1)
    (p : String) (sid : Option String) (hp : p ≠ "") (hlast : endsWithSlashS p = false)
    (hbs : p ≠ "\\") :
    resolveFullPath fs cfg (p ++ "/") sid = resolveFullPath fs cfg p sid := by
  have hslash : p ≠ "/" := ne_root_of_not_ends p hlast
  have hn1 : normRel (p ++ "/") = p ++ "/" := by
    unfold normRel
    rw [if_neg (by
      rintro (h | h | h)
      · exact append_slash_ne_empty p h
      · exact append_slash_ne_root p hp h
      · exact append_slash_ne_backslash p h)]
  have hn2 : normRel p = p := by
    unfold normRel
    rw [if_neg (by
      rintro (h | h | h)
      · exact hp h
      · exact hslash h
      · exact hbs h)]
  unfold resolveFullPath
  dsimp only
  rw [hn1, hn2]
  by_cases hs : sidTruthy sid = true
  · rw [if_pos hs, if_pos hs,
      ensurePathAllowed_append_slash fs cfg habs hcanon hk1 p hp hlast,
      buildSnapshotPath_append_slash fs cfg (sid.getD "") p hp hlast hbs]
  · rw [if_neg hs, if_neg hs, buildPath_append_slash fs cfg habs hcanon hk1 p hp hlast]

theorem childItemPath_append_slash (p name : String) (hp : p ≠ "")
    (hlast : endsWithSlashS p = false) :
    childItemPath (p ++ "/") name = childItemPath p name := by
  unfold childItemPath
  rw [if_neg (by
      rintro ⟨-, hend⟩
      rw [endsWithSlashS_append_slash] at hend
      exact absurd hend (by decide)),
    if_pos ⟨hp, hlast⟩]

/-- The scan loop only consults the queried relative path through the
per-child `item_path` it derives. -/
theorem fcLoop_rel_congr (fs : FSState) (cfg : Config) (r1 r2 : String)
    (sid : Option String) (lim : Nat)
    (h : ∀ name, childItemPath r1 name = childItemPath r2 name) :
    ∀ (entries : List DirEntry) (acc : List FSItem),
      fcLoop fs cfg r1 sid lim entries acc = fcLoop fs cfg r2 sid lim entries acc := by
  intro entries
  induction entries with
  | nil => intro acc; rfl
  | cons e rest ih =>
    intro acc
    unfold fcLoop
    rw [h e.name]
    simp only [ih]

theorem dirnameS_append_slash (p : String) (hp : p ≠ "")
    (hlast : endsWithSlashS p = false) :
    dirnameS (p ++ "/") = p := by
  have hpd : p.data ≠ [] := fun h => hp (String.ext h)
  have hpl : p.data.getLast? ≠ some '/' := notEndsSlash_getLast p hlast
  have hrev : (p.data ++ ['/']).reverse = '/' :: p.data.reverse := by
    rw [List.reverse_append]
    rfl
  have hdropA : List.dropWhile (fun c => c != '/') ('/' :: p.data.reverse)
      = '/' :: p.data.reverse := by
    rw [List.dropWhile_cons]
    simp
  have hdropB : List.dropWhile (fun c => c == '/') ('/' :: p.data.reverse)
      = p.data.reverse := by
    rw [List.dropWhile_cons]
    simp only [beq_self_eq_true, if_true]
    cases hr : p.data.reverse with
    | nil =>
      exact absurd (by simpa using congrArg List.reverse hr) hpd
    | cons c t =>
      have hc : c ≠ '/' := by
        intro hh
        apply hpl
        rw [← List.head?_reverse, hr, hh]
        rfl
      rw [List.dropWhile_cons]
      simp [hc]
  show (⟨dirnameL (p ++ "/").data⟩ : String) = p
  rw [data_append_slash]
  unfold dirnameL
  dsimp only
  rw [hrev, hdropA]
  have hhead : ('/' :: p.data.reverse).reverse = p.data ++ ['/'] := by
    rw [show ('/' :: p.data.reverse : List Char) = [('/' : Char)] ++ p.data.reverse from rfl,
      List.reverse_append, List.reverse_reverse]
    rfl
  rw [hhead]
  have hlastmem : ∃ a, p.data.getLast? = some a ∧ a ≠ '/' := by
    cases hg : p.data.getLast? with
    | none =>
      rw [List.getLast?_eq_none_iff] at hg
      exact absurd hg hpd
    | some a =>
      refine ⟨a, rfl, ?_⟩
      intro hh
      rw [hh] at hg
      exact hpl hg
  obtain ⟨a, hga, hane⟩ := hlastmem
  have hany : (p.data ++ ['/']).any (fun c => c != '/') = true :=
    List.any_eq_true.2 ⟨a, List.mem_append_left _ (List.mem_of_mem_getLast? hga),
      by simp [hane]⟩
  rw [if_pos ⟨by simp, hany⟩,
    show (p.data ++ ['/']).reverse = '/' :: p.data.reverse from hrev, hdropB,
    List.reverse_reverse]

theorem fcFolderName_append_slash (p : String) (hp : p ≠ "")
    (hlast : endsWithSlashS p = false) :
    fcFolderName (p ++ "/") = fcFolderName p := by
  unfold fcFolderName
  rw [if_pos (endsWithSlashS_append_slash p), dirnameS_append_slash p hp hlast,
    if_neg (by rw [hlast]; simp)]

/-- The part of a `folder_contents` result the trailing-slash claim speaks
about: the derived folder name and the child entries with their names and
logical relative paths.  (The folder's own `path` field echoes the queried
string verbatim and is outside the claim.) -/
def stripFC (r : Except Err FolderContents) :
    Except Err (String × List FolderItem × List FileItem) :=
  r.map (fun c => (c.folder.name, c.subfolders, c.files))

theorem folderContents_normFC_congr (fs : FSState) (cfg : Config) (r1 r2 : String)
    (lim : Option Nat) (sid : Option String) (h : normFC r1 = normFC r2) :
    folderContents fs cfg r1 lim sid = folderContents fs cfg r2 lim sid := by
  unfold folderContents
  rw [h]

theorem stripFC_append_slash (fs : FSState) (cfg : Config)
    (habs : IsAbsS cfg.file_system_path)
    (hcanon : normpathS cfg.file_system_path = cfg.file_system_path)
    (hk1 : initSlashes cfg.file_system_path.data = 1)
    (p : String) (lim : Option Nat) (sid : Option String)
    (hp : p ≠ "") (hlast : endsWithSlashS p = false) (hbs : p ≠ "\\") :
    stripFC (folderContents fs cfg (p ++ "/") lim sid)
      = stripFC (folderContents fs cfg p lim sid) := by
  have hslash : p ≠ "/" := ne_root_of_not_ends p hlast
  have hnf1 : normFC (p ++ "/") = p ++ "/" := by
    unfold normFC
    rw [if_neg (by
      rintro (h | h)
      · exact append_slash_ne_root p hp h
      · exact append_slash_ne_backslash p h)]
  have hnf2 : normFC p = p := by
    unfold normFC
    rw [if_neg (by
      rintro (h | h)
      · exact hslash h
      · exact hbs h)]
  unfold folderContents
  dsimp only
  rw [hnf1, hnf2, resolveFullPath_append_slash fs cfg habs hcanon hk1 p sid hp hlast hbs]
  cases hres : resolveFullPath fs cfg p sid with
  | error e => rfl
  | ok fp =>
    simp only [Bind.bind, Except.bind]
    by_cases hdir : fs.isDir fp = true
    · have hnd : ¬¬fs.isDir fp = true := by simp [hdir]
      rw [if_neg hnd, if_neg hnd,
        fcLoop_rel_congr fs cfg (p ++ "/") p sid (effScanLimit cfg lim)
          (fun name => childItemPath_append_slash p name hp hlast) (fs.scandir fp) []]
      cases hl : fcLoop fs cfg p sid (effScanLimit cfg lim) (fs.scandir fp) [] with
      | error e => rfl
      | ok items =>
        simp only [Bind.bind, Except.bind, Pure.pure, Except.pure]
        unfold stripFC
        simp only [Except.map]
        dsimp only [loadContents]
        rw [fcFolderName_append_slash p hp hlast]
    · have hnd : ¬fs.isDir fp = true := hdir
      rw [if_pos hnd, if_pos hnd]

/-- C9 (amended): for every relative path `p` that does not end in a slash
and is not the root alias `"\\"`, listing `p` and `p + "/"` produce the same
derived folder name and the same child entries (same names and same per-child
logical relative paths); stated for a canonical absolute configured root with
a single leading slash. -/
theorem claim_C9_amended (fs : FSState) (cfg : Config)
    (habs : IsAbsS cfg.file_system_path)
    (hcanon : normpathS cfg.file_system_path = cfg.file_system_path)
    (hk1 : initSlashes cfg.file_system_path.data = 1)
    (p : String) (lim : Option Nat) (sid : Option String)
    (hlast : endsWithSlashS p = false) (hbs : p ≠ "\\") :
    stripFC (folderContents fs cfg (p ++ "/") lim sid)
      = stripFC (folderContents fs cfg p lim sid) := by
  by_cases hp : p = ""
  · subst hp
    exact congrArg stripFC (folderContents_normFC_congr fs cfg ("" ++ "/") "" lim sid rfl)
  · exact stripFC_append_slash fs cfg habs hcanon hk1 p lim sid hp hlast hbs

/-- A world refuting the claim verbatim: the root contains a directory whose
name is a single backslash. -/
def exFsC9 : FSState :=
  { exFsA with
    pathExists := fun q => q = "/r" ∨ q = "/r/\\"
    isDir := fun q => q = "/r" ∨ q = "/r/\\"
    scandir := fun q => if q = "/r/\\" then [⟨"f", false, 1⟩] else [] }

/-- C9 counterexample: `p = "\\"` does not end in a slash, yet
`folder_contents("\\")` is normalized to the share root (empty folder name,
the root's children) while `folder_contents("\\/")` lists the actual
directory named `"\\"` — different folder names and different child sets. -/
theorem claim_C9_counterexample :
    endsWithSlashS "\\" = false ∧
    stripFC (folderContents exFsC9 exCfgA ("\\" ++ "/") none none)
      ≠ stripFC (folderContents exFsC9 exCfgA "\\" none none) := by
  refine ⟨rfl, ?_⟩
  intro h
  rw [show stripFC (folderContents exFsC9 exCfgA ("\\" ++ "/") none none)
      = .ok ("\\", [], [⟨"f", "\\/f", 1, false⟩]) from rfl,
    show stripFC (folderContents exFsC9 exCfgA "\\" none none)
      = .ok ("", [], []) from rfl] at h
  simp only [Except.ok.injEq, Prod.mk.injEq] at h
  exact absurd h.1 (by decide)

/-- Witness for the amended C9 at a concrete world: listing `"d"` and `"d/"`
in `exFsA` agree on the folder name and the child entries. -/
theorem claim_C9_witness :
    stripFC (folderContents exFsA exCfgA ("d" ++ "/") none none)
      = stripFC (folderContents exFsA exCfgA "d" none none) :=
  claim_C9_amended exFsA exCfgA rfl rfl rfl "d" none none rfl (by decide)
